import Mathlib

/-! # Todo backend (`src/server.js`)

A shallow embedding of the in-memory todo server: the module-level variables
`todos` and `nextId` become a `State`, each route handler becomes a function
from the request data, the clock reading and the state to a response and the
next state.

Conventions of the embedding.

* Values taken from the JSON request body are JavaScript values (`JVal`), with
  `undefined` standing for a field that the body does not carry.
* `new Date(value)` is a runtime builtin whose string parsing is left to the
  JavaScript engine; it is a parameter `newDate : JVal → Option Int` giving the
  time value in milliseconds, `none` standing for an invalid date (`getTime()`
  is `NaN`).
* `new Date()` (the clock) is the parameter `now : Int`.
* `nextId` and record ids are natural numbers; JavaScript numbers represent
  them exactly below `2^53`.
-/

namespace TodoApp

/-! ## JavaScript values -/

mutual
/-- JavaScript values that can reach a handler through `req.body`. -/
inductive JVal where
  | undefined
  | null
  | bool (b : Bool)
  /-- The finite number `mant * 2 ^ exp`. -/
  | num (mant : Int) (exp : Int)
  /-- The numbers `Infinity` and `-Infinity` (`JSON.parse` gives them for `1e999`). -/
  | infinity (negative : Bool)
  | str (s : String)
  | arr (items : JList)
  | obj (fields : JFields)
/-- Elements of a JSON array. -/
inductive JList where
  | nil
  | cons (head : JVal) (tail : JList)
/-- Members of a JSON object. -/
inductive JFields where
  | nil
  | cons (key : String) (value : JVal) (tail : JFields)
end

/-- JavaScript `Boolean(v)`, the truthiness used by `!v`, `v && _` and `v || _`. -/
def JVal.truthy : JVal → Bool
  | .undefined => false
  | .null => false
  | .bool b => b
  | .num mant _ => mant != 0
  | .infinity _ => true
  | .str s => s != ""
  | .arr _ => true
  | .obj _ => true

/-- JavaScript `typeof v`. -/
def JVal.typeof : JVal → String
  | .undefined => "undefined"
  | .null => "object"
  | .bool _ => "boolean"
  | .num _ _ => "number"
  | .infinity _ => "number"
  | .str _ => "string"
  | .arr _ => "object"
  | .obj _ => "object"

/-- The test `v !== undefined`. -/
def JVal.isDefined : JVal → Bool
  | .undefined => false
  | _ => true

/-! ## Data model -/

/-- A todo record `{ id, title, description, dueAt, done, createdAt, updatedAt }`.
`dueAt` is `null` or a `Date`, `createdAt` and `updatedAt` are `Date`s; dates are
held by their time value. -/
structure Todo where
  id : Nat
  title : JVal
  description : JVal
  dueAt : Option Int
  done : Bool
  createdAt : Int
  updatedAt : Int

/-- The module state: `let todos = []; let nextId = 1;`. -/
structure State where
  todos : List Todo
  nextId : Nat

/-- State at startup. -/
def State.init : State := ⟨[], 1⟩

/-- The fields a handler destructures from `req.body`. -/
structure Body where
  title : JVal
  description : JVal
  dueAt : JVal
  done : JVal

/-- What `res.json` is given. -/
inductive Payload where
  | error (msg : String)
  | todo (t : Todo)
  | todos (ts : List Todo)
  | health (status : String) (timestamp : Int)
  /-- Answer of `res.json(undefined)`. -/
  | empty

/-- An HTTP answer: status code and JSON payload. -/
structure Response where
  status : Nat
  body : Payload

/-- The value of `Number(req.params.id)`: an integer, or a number that equals no
integer (`NaN`, a fraction, an infinity). -/
inductive IdParam where
  | int (i : Int)
  | other

/-- The callback `t => t.id === id`. -/
def IdParam.isIdOf (id : IdParam) (t : Todo) : Bool :=
  match id with
  | .int i => (t.id : Int) == i
  | .other => false

/-! ## Helpers -/

/-- `parseDate(value)`. -/
def parseDate (newDate : JVal → Option Int) (value : JVal) : Option Int :=
  if !value.truthy then none
  else
    match newDate value with
    | none => none
    | some date => some date

/-- Writing through the reference returned by `todos.find(p)`: the first element
satisfying `p` is the object that was mutated, `t` is its content afterwards. -/
def assignFirst (p : Todo → Bool) (t : Todo) : List Todo → List Todo
  | [] => []
  | x :: xs => if p x then t :: xs else x :: assignFirst p t xs

/-- `todos.splice(start, deleteCount)`: the removed elements and the array left. -/
def splice (l : List Todo) (start deleteCount : Nat) : List Todo × List Todo :=
  ((l.drop start).take deleteCount, l.take start ++ l.drop (start + deleteCount))

/-- The filter callback of `/todos-remaining`:
`t => !t.done && (!t.dueAt || t.dueAt >= now)`. -/
def isRemaining (now : Int) (t : Todo) : Bool :=
  !t.done &&
    (match t.dueAt with
     | none => true
     | some due => decide (due ≥ now))

/-! ## Handlers -/

/-- `app.post('/todos', ...)`. -/
def createTodo (newDate : JVal → Option Int) (now : Int) (body : Body) (s : State) :
    Response × State :=
  if !body.title.truthy || body.title.typeof != "string" then
    (⟨400, .error "Title is required and must be a string."⟩, s)
  else
    let parsedDueAt := parseDate newDate body.dueAt
    if body.dueAt.truthy && parsedDueAt.isNone then
      (⟨400, .error "Invalid dueAt date-time format."⟩, s)
    else
      let todo : Todo :=
        { id := s.nextId
          title := body.title
          description := if body.description.truthy then body.description else .str ""
          dueAt := parsedDueAt
          done := false
          createdAt := now
          updatedAt := now }
      (⟨201, .todo todo⟩, ⟨s.todos ++ [todo], s.nextId + 1⟩)

/-- `app.get('/todos', ...)`. -/
def listTodos (s : State) : Response × State :=
  (⟨200, .todos s.todos⟩, s)

/-- `app.get('/todos/:id', ...)`. -/
def getTodo (id : IdParam) (s : State) : Response × State :=
  match s.todos.find? id.isIdOf with
  | none => (⟨404, .error "Todo not found."⟩, s)
  | some todo => (⟨200, .todo todo⟩, s)

/-- `app.put('/todos/:id', ...)`. The record found is mutated in place, one
assignment after the other; `store t` is the state in which the found object has
content `t`. -/
def updateTodo (newDate : JVal → Option Int) (now : Int) (id : IdParam) (body : Body)
    (s : State) : Response × State :=
  match s.todos.find? id.isIdOf with
  | none => (⟨404, .error "Todo not found."⟩, s)
  | some todo =>
    let store (t : Todo) : State := ⟨assignFirst id.isIdOf t s.todos, s.nextId⟩
    if body.title.isDefined && (!body.title.truthy || body.title.typeof != "string") then
      (⟨400, .error "Title must be a non-empty string when provided."⟩, s)
    else
      let todo1 := if body.title.isDefined then { todo with title := body.title } else todo
      let todo2 :=
        if body.description.isDefined then { todo1 with description := body.description }
        else todo1
      let parsedDueAt := parseDate newDate body.dueAt
      if body.dueAt.isDefined && (body.dueAt.truthy && parsedDueAt.isNone) then
        (⟨400, .error "Invalid dueAt date-time format."⟩, store todo2)
      else
        let todo3 := if body.dueAt.isDefined then { todo2 with dueAt := parsedDueAt } else todo2
        let todo4 := if body.done.isDefined then { todo3 with done := body.done.truthy } else todo3
        let todo5 := { todo4 with updatedAt := now }
        (⟨200, .todo todo5⟩, store todo5)

/-- `app.delete('/todos/:id', ...)`; `findIndex` giving `-1` is `none`. -/
def deleteTodo (id : IdParam) (s : State) : Response × State :=
  match s.todos.findIdx? id.isIdOf with
  | none => (⟨404, .error "Todo not found."⟩, s)
  | some index =>
    let r := splice s.todos index 1
    match r.1.head? with
    | some deleted => (⟨200, .todo deleted⟩, ⟨r.2, s.nextId⟩)
    | none => (⟨200, .empty⟩, ⟨r.2, s.nextId⟩)

/-- `app.post('/todos/:id/done', ...)`. -/
def markDone (now : Int) (id : IdParam) (s : State) : Response × State :=
  match s.todos.find? id.isIdOf with
  | none => (⟨404, .error "Todo not found."⟩, s)
  | some todo =>
    let todo1 := { todo with done := true }
    let todo2 := { todo1 with updatedAt := now }
    (⟨200, .todo todo2⟩, ⟨assignFirst id.isIdOf todo2 s.todos, s.nextId⟩)

/-- `app.get('/todos-remaining', ...)`. -/
def listRemaining (now : Int) (s : State) : Response × State :=
  let remaining := s.todos.filter (isRemaining now)
  (⟨200, .todos remaining⟩, s)

/-- `app.get('/health', ...)`. -/
def health (now : Int) (s : State) : Response × State :=
  (⟨200, .health "ok" now⟩, s)

/-! ## Requests and reachable states -/

/-- The routes of the application with the data each handler reads. -/
inductive Request where
  | create (body : Body)
  | list
  | get (id : IdParam)
  | update (id : IdParam) (body : Body)
  | delete (id : IdParam)
  | done (id : IdParam)
  | remaining
  | health

/-- One request handled to completion at clock reading `now`. -/
def handle (newDate : JVal → Option Int) (now : Int) (req : Request) (s : State) :
    Response × State :=
  match req with
  | .create body => createTodo newDate now body s
  | .list => listTodos s
  | .get id => getTodo id s
  | .update id body => updateTodo newDate now id body s
  | .delete id => deleteTodo id s
  | .done id => markDone now id s
  | .remaining => listRemaining now s
  | .health => health now s

/-- States the server can be in: the startup state, and every state that follows
a reachable one by a request at any clock reading. -/
inductive Reachable (newDate : JVal → Option Int) : State → Prop where
  | init : Reachable newDate State.init
  | step (now : Int) (req : Request) {s : State} :
      Reachable newDate s → Reachable newDate (handle newDate now req s).2

/-- A small table of `new Date(v).getTime()` used to run the handlers on concrete
requests: two ISO strings with their time values; nothing else is in the table. -/
def sampleDate : JVal → Option Int
  | .str s =>
    if s = "1970-01-01T00:00:00.000Z" then some 0
    else if s = "2030-01-01T00:00:00.000Z" then some 1893456000000
    else none
  | _ => none

/-! ## Records named by the statements -/

/-- The record a successful `POST /todos` builds from `body` at clock reading `now`
in state `s`: `description || ''` keeps a truthy description and turns a missing or
falsy one into the empty string, `parseDate` gives `null` for a missing or falsy
`dueAt`. -/
def createdTodo (newDate : JVal → Option Int) (now : Int) (body : Body) (s : State) : Todo :=
  { id := s.nextId
    title := body.title
    description := if body.description.truthy then body.description else .str ""
    dueAt := if body.dueAt.truthy then newDate body.dueAt else none
    done := false
    createdAt := now
    updatedAt := now }

/-- The record a successful `PUT /todos/:id` leaves in place of `todo`: every field
the body carries is assigned, `updatedAt` is the clock reading. -/
def updatedTodo (newDate : JVal → Option Int) (now : Int) (body : Body) (todo : Todo) : Todo :=
  { id := todo.id
    title := if body.title.isDefined then body.title else todo.title
    description := if body.description.isDefined then body.description else todo.description
    dueAt :=
      if body.dueAt.isDefined then (if body.dueAt.truthy then newDate body.dueAt else none)
      else todo.dueAt
    done := if body.done.isDefined then body.done.truthy else todo.done
    createdAt := todo.createdAt
    updatedAt := now }

/-- The content of the found record when `PUT /todos/:id` reaches the `dueAt` check:
the title and description assignments have been made. -/
def titleDescriptionWritten (body : Body) (todo : Todo) : Todo :=
  { todo with
    title := if body.title.isDefined then body.title else todo.title
    description := if body.description.isDefined then body.description else todo.description }

/-- The ids of the stored records, in storage order. -/
def State.ids (s : State) : List Nat := s.todos.map Todo.id

/-- The id discipline of the store: ids increase strictly along the array, every id
is at least 1 and below the counter, and the counter is at least 1. -/
def WellFormed (s : State) : Prop :=
  s.ids.Pairwise (· < ·) ∧ (∀ i ∈ s.ids, 1 ≤ i ∧ i < s.nextId) ∧ 1 ≤ s.nextId

/-! ## Runs -/

/-- The state after a sequence of requests, each with its clock reading, handled one
after the other from `s`. -/
def runFrom (newDate : JVal → Option Int) (s : State) : List (Int × Request) → State
  | [] => s
  | q :: rest => runFrom newDate (handle newDate q.1 q.2 s).2 rest

/-- The id a request handed out: the id of the record in the 201 answer of a
`POST /todos`. -/
def createdId (req : Request) (res : Response) : Option Nat :=
  match req, res with
  | .create _, ⟨201, .todo t⟩ => some t.id
  | _, _ => none

/-- The ids handed out by the successful creates of a run, in the order of the
requests. -/
def createdIds (newDate : JVal → Option Int) (s : State) : List (Int × Request) → List Nat
  | [] => []
  | q :: rest =>
    (createdId q.2 (handle newDate q.1 q.2 s).1).toList ++
      createdIds newDate (handle newDate q.1 q.2 s).2 rest

/-- A description that is a string, or is missing from the body. -/
def JVal.isTextOrMissing : JVal → Bool
  | .str _ => true
  | .undefined => true
  | _ => false

/-- The requests whose body, if they read one, carries a string as description or no
description. -/
def Request.descriptionIsText : Request → Bool
  | .create body => body.description.isTextOrMissing
  | .update _ body => body.description.isTextOrMissing
  | _ => true

/-- One successful stamping of a record: the clock reading of the request, the id of
the record in the answer, and whether the request created the record. -/
structure Stamp where
  time : Int
  id : Nat
  created : Bool

/-- The stamp a handled request leaves: a `POST /todos` answered 201, a
`PUT /todos/:id` answered 200 and a `POST /todos/:id/done` answered 200 stamp the
record of the answer; no other request and no other answer stamps a record. -/
def stampOf (now : Int) (req : Request) (res : Response) : Option Stamp :=
  match req, res with
  | .create _, ⟨201, .todo t⟩ => some ⟨now, t.id, true⟩
  | .update _ _, ⟨200, .todo t⟩ => some ⟨now, t.id, false⟩
  | .done _, ⟨200, .todo t⟩ => some ⟨now, t.id, false⟩
  | _, _ => none

/-- The stamps of a run, oldest first. -/
def stampsFrom (newDate : JVal → Option Int) (s : State) : List (Int × Request) → List Stamp
  | [] => []
  | q :: rest =>
    (stampOf q.1 q.2 (handle newDate q.1 q.2 s).1).toList ++
      stampsFrom newDate (handle newDate q.1 q.2 s).2 rest

/-- In the words of the claim: the time at which the record `id` was created, the
time of the first creating stamp for it. -/
def createdStamped (id : Nat) (stamps : List Stamp) : Option Int :=
  (stamps.find? (fun e => e.created && e.id == id)).map Stamp.time

/-- In the words of the claim: the time of the last successful create, update or
mark-done applied to the record `id`. -/
def lastStamped (id : Nat) (stamps : List Stamp) : Option Int :=
  (stamps.reverse.find? (fun e => e.id == id)).map Stamp.time

/-- The stored timestamps agree with a list of stamps: every stamp is for an id below
the counter, and every stored record has the creation time and the last stamping
time the list gives for its id. -/
def Agree (s : State) (stamps : List Stamp) : Prop :=
  (∀ e ∈ stamps, e.id < s.nextId) ∧
    ∀ t ∈ s.todos,
      createdStamped t.id stamps = some t.createdAt ∧ lastStamped t.id stamps = some t.updatedAt

/-! ## Theorems: validation helpers -/

/-- The title test of the handlers, `!title || typeof title !== 'string'`, lets
through exactly the non-empty strings. -/
theorem title_accepted_iff (v : JVal) :
    (!v.truthy || v.typeof != "string") = false ↔ ∃ t, v = .str t ∧ t ≠ "" := by
  cases v <;> simp [JVal.truthy, JVal.typeof]

/-- The title test rejects a title that is missing, the empty string, or no string. -/
theorem title_rejected_iff (v : JVal) :
    (v = .undefined ∨ v = .str "" ∨ v.typeof ≠ "string") ↔
      (!v.truthy || v.typeof != "string") = true := by
  cases v <;> simp [JVal.truthy, JVal.typeof]

/-- The value of `parseDate`: the time value of `new Date(v)` for a truthy `v`, `null`
otherwise and for an invalid date. -/
theorem parseDate_eq (newDate : JVal → Option Int) (v : JVal) :
    parseDate newDate v = if v.truthy then newDate v else none := by
  unfold parseDate
  cases v.truthy <;> simp
  cases newDate v <;> rfl

/-! ## Theorems: create -/

/-- A rejected title ends `POST /todos` with 400 and the state as it was. -/
theorem create_reject_title (newDate : JVal → Option Int) (now : Int) (body : Body) (s : State)
    (h : (!body.title.truthy || body.title.typeof != "string") = true) :
    createTodo newDate now body s =
      (⟨400, .error "Title is required and must be a string."⟩, s) := by
  unfold createTodo
  rw [if_pos h]

/-- A truthy `dueAt` that is no valid date ends `POST /todos` with 400 and the state
as it was. -/
theorem create_reject_dueAt (newDate : JVal → Option Int) (now : Int) (body : Body) (s : State)
    (h : (!body.title.truthy || body.title.typeof != "string") = false)
    (hd : body.dueAt.truthy = true) (hn : newDate body.dueAt = none) :
    createTodo newDate now body s = (⟨400, .error "Invalid dueAt date-time format."⟩, s) := by
  unfold createTodo
  rw [if_neg (by simp [h]), parseDate_eq]
  simp [hd, hn]

/-- The accepted case of `POST /todos`, as an equation on the handler. -/
theorem create_accept (newDate : JVal → Option Int) (now : Int) (body : Body) (s : State)
    (h : (!body.title.truthy || body.title.typeof != "string") = false)
    (hdue : body.dueAt.truthy = false ∨ newDate body.dueAt ≠ none) :
    createTodo newDate now body s =
      (⟨201, .todo (createdTodo newDate now body s)⟩,
       ⟨s.todos ++ [createdTodo newDate now body s], s.nextId + 1⟩) := by
  unfold createTodo
  rw [if_neg (by simp [h]), parseDate_eq]
  rcases hdue with h | h
  · simp [h, createdTodo]
  · cases hn : newDate body.dueAt with
    | none => exact absurd hn h
    | some d => cases hd : body.dueAt.truthy <;> simp [createdTodo, hn, hd]

/-- C1 (create success). For every state and every body whose title is a non-empty
string and whose `dueAt` is falsy (missing included) or a valid date, `POST /todos`
answers 201 with the record `createdTodo`: its id is the counter before the call,
`done` is false, `createdAt` and `updatedAt` are both the clock reading, the
description is the one given, or the empty string when none is given (missing or
falsy), `dueAt` is the parsed time value, or `null` when none is given (missing or
falsy). The new collection is the old one with that record appended, and the counter
is one more. -/
theorem create_success (newDate : JVal → Option Int) (now : Int) (body : Body) (s : State)
    (htitle : ∃ t, body.title = .str t ∧ t ≠ "")
    (hdue : body.dueAt.truthy = false ∨ newDate body.dueAt ≠ none) :
    createTodo newDate now body s =
        (⟨201, .todo (createdTodo newDate now body s)⟩,
         ⟨s.todos ++ [createdTodo newDate now body s], s.nextId + 1⟩) ∧
      (createdTodo newDate now body s).id = s.nextId ∧
      (createdTodo newDate now body s).title = body.title ∧
      (createdTodo newDate now body s).done = false ∧
      (createdTodo newDate now body s).createdAt = now ∧
      (createdTodo newDate now body s).updatedAt = now ∧
      (body.description.truthy = true →
        (createdTodo newDate now body s).description = body.description) ∧
      (body.description.truthy = false →
        (createdTodo newDate now body s).description = .str "") ∧
      (body.dueAt.truthy = true →
        (createdTodo newDate now body s).dueAt = newDate body.dueAt ∧
        (createdTodo newDate now body s).dueAt ≠ none) ∧
      (body.dueAt.truthy = false → (createdTodo newDate now body s).dueAt = none) := by
  refine ⟨create_accept newDate now body s ((title_accepted_iff _).mpr htitle) hdue,
    rfl, rfl, rfl, rfl, rfl, ?_, ?_, ?_, ?_⟩
  · intro h; simp [createdTodo, h]
  · intro h; simp [createdTodo, h]
  · intro h
    rcases hdue with h2 | h2
    · rw [h] at h2; cases h2
    · simp [createdTodo, h, h2]
  · intro h; simp [createdTodo, h]

/-- Witness of C1: creating `{title: "A", dueAt: "2030-01-01T00:00:00.000Z"}` at
startup. -/
theorem create_success_witness :
    createTodo sampleDate 1000
        ⟨.str "A", .undefined, .str "2030-01-01T00:00:00.000Z", .undefined⟩ State.init =
      (⟨201, .todo ⟨1, .str "A", .str "", some 1893456000000, false, 1000, 1000⟩⟩,
       ⟨[⟨1, .str "A", .str "", some 1893456000000, false, 1000, 1000⟩], 2⟩) :=
  (create_success sampleDate 1000
    ⟨.str "A", .undefined, .str "2030-01-01T00:00:00.000Z", .undefined⟩ State.init
    ⟨"A", rfl, by decide⟩ (Or.inr (by decide))).1.trans rfl

/-- C2 (create validation). `POST /todos` answers 400 exactly when the title is
missing, the empty string or no string, or `dueAt` is truthy and no valid date; in
every other case it answers 201. -/
theorem create_status (newDate : JVal → Option Int) (now : Int) (body : Body) (s : State) :
    ((createTodo newDate now body s).1.status = 400 ↔
      ((body.title = .undefined ∨ body.title = .str "" ∨ body.title.typeof ≠ "string") ∨
        (body.dueAt.truthy = true ∧ newDate body.dueAt = none))) ∧
    ((createTodo newDate now body s).1.status = 201 ↔
      ¬ ((body.title = .undefined ∨ body.title = .str "" ∨ body.title.typeof ≠ "string") ∨
        (body.dueAt.truthy = true ∧ newDate body.dueAt = none))) := by
  rw [title_rejected_iff]
  by_cases ht : (!body.title.truthy || body.title.typeof != "string") = true
  · rw [create_reject_title newDate now body s ht]
    simp [ht]
  · have ht2 : (!body.title.truthy || body.title.typeof != "string") = false := by
      simpa using ht
    by_cases hd : body.dueAt.truthy = true ∧ newDate body.dueAt = none
    · rw [create_reject_dueAt newDate now body s ht2 hd.1 hd.2]
      simp [hd]
    · have hok : body.dueAt.truthy = false ∨ newDate body.dueAt ≠ none := by
        by_cases h1 : body.dueAt.truthy = true
        · exact Or.inr (fun hn => hd ⟨h1, hn⟩)
        · exact Or.inl (by simpa using h1)
      rw [create_accept newDate now body s ht2 hok]
      simp only [ht, hd, or_self, iff_false, not_false_eq_true, iff_true, and_true]
      decide

/-! ## Theorems: the record found and written -/

/-- When some record satisfies `p`, `find` returns one. -/
theorem find_some_of_mem (p : Todo → Bool) (l : List Todo) (t : Todo) (hm : t ∈ l)
    (hp : p t = true) : ∃ x, l.find? p = some x := by
  cases h : l.find? p with
  | some x => exact ⟨x, rfl⟩
  | none =>
    rw [List.find?_eq_none] at h
    exact absurd hp (h t hm)

/-- The record `find` returns splits the array: nothing before it satisfies `p`, and a
write through the reference replaces exactly that element. -/
theorem find_split (p : Todo → Bool) (l : List Todo) (t : Todo) (h : l.find? p = some t) :
    ∃ pre post, l = pre ++ t :: post ∧ (∀ x ∈ pre, p x = false) ∧ p t = true ∧
      ∀ u, assignFirst p u l = pre ++ u :: post := by
  induction l with
  | nil => simp at h
  | cons x xs ih =>
    by_cases hx : p x = true
    · rw [List.find?_cons_of_pos _ hx] at h
      cases h
      exact ⟨[], xs, rfl, by simp, hx, fun u => by simp [assignFirst, hx]⟩
    · rw [List.find?_cons_of_neg _ hx] at h
      obtain ⟨pre, post, hl, hpre, ht, hw⟩ := ih h
      refine ⟨x :: pre, post, by simp [hl], ?_, ht, fun u => by simp [assignFirst, hx, hw]⟩
      intro y hy
      rcases List.mem_cons.mp hy with rfl | hy
      · simpa using hx
      · exact hpre y hy

/-- In a split whose prefix has no match, `find` returns the element after the prefix. -/
theorem find_of_split (p : Todo → Bool) (pre post : List Todo) (t : Todo)
    (hpre : ∀ x ∈ pre, p x = false) (ht : p t = true) :
    (pre ++ t :: post).find? p = some t := by
  induction pre with
  | nil => simp [ht]
  | cons x xs ih =>
    have hx : ¬ p x = true := by simp [hpre x (by simp)]
    rw [List.cons_append, List.find?_cons_of_neg _ hx]
    exact ih (fun y hy => hpre y (by simp [hy]))

/-- In a split whose prefix has no match, a write through the reference replaces the
element after the prefix. -/
theorem assignFirst_of_split (p : Todo → Bool) (pre post : List Todo) (t u : Todo)
    (hpre : ∀ x ∈ pre, p x = false) (ht : p t = true) :
    assignFirst p u (pre ++ t :: post) = pre ++ u :: post := by
  induction pre with
  | nil => simp [assignFirst, ht]
  | cons x xs ih =>
    have hx : p x = false := hpre x (by simp)
    simp [assignFirst, hx, ih (fun y hy => hpre y (by simp [hy]))]

/-! ## Theorems: update -/

/-- The test `v !== undefined` as a proposition. -/
theorem isDefined_iff (v : JVal) : v.isDefined = true ↔ v ≠ .undefined := by
  cases v <;> simp [JVal.isDefined]

/-- No record with the id: `PUT /todos/:id` answers 404, the state is as it was. -/
theorem update_not_found (newDate : JVal → Option Int) (now : Int) (id : IdParam) (body : Body)
    (s : State) (h : s.todos.find? id.isIdOf = none) :
    updateTodo newDate now id body s = (⟨404, .error "Todo not found."⟩, s) := by
  unfold updateTodo
  rw [h]

/-- A provided title that is rejected: 400 before any assignment. -/
theorem update_reject_title (newDate : JVal → Option Int) (now : Int) (id : IdParam)
    (body : Body) (s : State) (todo : Todo) (h : s.todos.find? id.isIdOf = some todo)
    (ht : (body.title.isDefined && (!body.title.truthy || body.title.typeof != "string")) = true) :
    updateTodo newDate now id body s =
      (⟨400, .error "Title must be a non-empty string when provided."⟩, s) := by
  unfold updateTodo
  rw [h]
  simp only [ht, if_true]

/-- A provided `dueAt` that is truthy and no valid date: 400 after the title and the
description have been assigned to the stored record. -/
theorem update_reject_dueAt (newDate : JVal → Option Int) (now : Int) (id : IdParam)
    (body : Body) (s : State) (todo : Todo) (h : s.todos.find? id.isIdOf = some todo)
    (ht : (body.title.isDefined && (!body.title.truthy || body.title.typeof != "string")) = false)
    (hd : body.dueAt.truthy = true) (hn : newDate body.dueAt = none) :
    updateTodo newDate now id body s =
      (⟨400, .error "Invalid dueAt date-time format."⟩,
       ⟨assignFirst id.isIdOf (titleDescriptionWritten body todo) s.todos, s.nextId⟩) := by
  have hdef : body.dueAt.isDefined = true := by
    cases hv : body.dueAt <;> simp [JVal.isDefined]
    rw [hv] at hd; simp [JVal.truthy] at hd
  unfold updateTodo
  rw [h]
  simp only [ht, parseDate_eq, hd, hn, hdef, titleDescriptionWritten]
  cases body.title.isDefined <;> cases body.description.isDefined <;> simp

/-- A body that passes both checks: 200, and the found record is replaced by
`updatedTodo`. -/
theorem update_accept (newDate : JVal → Option Int) (now : Int) (id : IdParam)
    (body : Body) (s : State) (todo : Todo) (h : s.todos.find? id.isIdOf = some todo)
    (ht : (body.title.isDefined && (!body.title.truthy || body.title.typeof != "string")) = false)
    (hdue : body.dueAt.truthy = false ∨ newDate body.dueAt ≠ none) :
    updateTodo newDate now id body s =
      (⟨200, .todo (updatedTodo newDate now body todo)⟩,
       ⟨assignFirst id.isIdOf (updatedTodo newDate now body todo) s.todos, s.nextId⟩) := by
  unfold updateTodo
  rw [h]
  simp only [ht, parseDate_eq, updatedTodo]
  rcases hdue with hd | hd
  · cases body.title.isDefined <;> cases body.description.isDefined <;>
      cases body.dueAt.isDefined <;> cases body.done.isDefined <;> simp [hd]
  · cases hn : newDate body.dueAt with
    | none => exact absurd hn hd
    | some d =>
      cases body.title.isDefined <;> cases body.description.isDefined <;>
        cases body.dueAt.isDefined <;> cases body.done.isDefined <;>
        cases body.dueAt.truthy <;> simp

/-- The title test of `PUT /todos/:id` fails exactly for a provided title that is the
empty string or no string. -/
theorem update_title_rejected_iff (v : JVal) :
    (v.isDefined && (!v.truthy || v.typeof != "string")) = true ↔
      (v ≠ .undefined ∧ (v = .str "" ∨ v.typeof ≠ "string")) := by
  cases v <;> simp [JVal.truthy, JVal.typeof, JVal.isDefined]

/-- The title test of `PUT /todos/:id` passes exactly for a missing title and for a
non-empty string. -/
theorem update_title_accepted_iff (v : JVal) :
    (v.isDefined && (!v.truthy || v.typeof != "string")) = false ↔
      (v = .undefined ∨ ∃ t, v = .str t ∧ t ≠ "") := by
  cases v <;> simp [JVal.truthy, JVal.typeof, JVal.isDefined]

/-- C3 (update has no partial effects), refuted by the code at a concrete request.
The state holds the single record with id 1 and title "A"; `PUT /todos/1` with the
body `{title: "B", dueAt: "not-a-date"}` is answered 400, and the stored record has
the title "B" afterwards: the title was assigned before the `dueAt` check returned. -/
theorem update_error_partial_effect (newDate : JVal → Option Int) (now : Int)
    (hbad : newDate (.str "not-a-date") = none) :
    updateTodo newDate now (.int 1) ⟨.str "B", .undefined, .str "not-a-date", .undefined⟩
        ⟨[⟨1, .str "A", .str "", none, false, 0, 0⟩], 2⟩ =
      (⟨400, .error "Invalid dueAt date-time format."⟩,
       ⟨[⟨1, .str "B", .str "", none, false, 0, 0⟩], 2⟩) := by
  exact update_reject_dueAt newDate now (.int 1)
    ⟨.str "B", .undefined, .str "not-a-date", .undefined⟩
    ⟨[⟨1, .str "A", .str "", none, false, 0, 0⟩], 2⟩ ⟨1, .str "A", .str "", none, false, 0, 0⟩
    rfl rfl rfl hbad

/-- Witness of C3 with the sample date table, in which "not-a-date" is no date. -/
theorem update_error_partial_effect_witness :
    updateTodo sampleDate 7 (.int 1) ⟨.str "B", .undefined, .str "not-a-date", .undefined⟩
        ⟨[⟨1, .str "A", .str "", none, false, 0, 0⟩], 2⟩ =
      (⟨400, .error "Invalid dueAt date-time format."⟩,
       ⟨[⟨1, .str "B", .str "", none, false, 0, 0⟩], 2⟩) :=
  update_error_partial_effect sampleDate 7 (by decide)

/-- C4 (update success). When a record of the collection has the id and the body
passes validation (title missing or a non-empty string, `dueAt` falsy or a valid
date), `PUT /todos/:id` answers 200 with a record `r` that has the id and is the one
now stored for it, in which every provided field has its new value: the title is the
given one, the description is the given value, `dueAt` is the parsed time value for a
truthy `dueAt` and `null` for a provided falsy one, `done` is the truthiness of the
given value; `updatedAt` is the clock reading whatever the body provides. -/
theorem update_success (newDate : JVal → Option Int) (now : Int) (id : IdParam) (body : Body)
    (s : State) (hex : ∃ t ∈ s.todos, id.isIdOf t = true)
    (htitle : body.title = .undefined ∨ ∃ t, body.title = .str t ∧ t ≠ "")
    (hdue : body.dueAt.truthy = false ∨ newDate body.dueAt ≠ none) :
    ∃ r, (updateTodo newDate now id body s).1 = ⟨200, .todo r⟩ ∧
      id.isIdOf r = true ∧
      (updateTodo newDate now id body s).2.todos.find? id.isIdOf = some r ∧
      (body.title ≠ .undefined → r.title = body.title) ∧
      (body.description ≠ .undefined → r.description = body.description) ∧
      (body.dueAt ≠ .undefined → body.dueAt.truthy = true →
        r.dueAt = newDate body.dueAt ∧ r.dueAt ≠ none) ∧
      (body.dueAt ≠ .undefined → body.dueAt.truthy = false → r.dueAt = none) ∧
      (body.done ≠ .undefined → r.done = body.done.truthy) ∧
      r.updatedAt = now := by
  obtain ⟨t, hm, hp⟩ := hex
  obtain ⟨todo, hf⟩ := find_some_of_mem id.isIdOf s.todos t hm hp
  obtain ⟨pre, post, hl, hpre, hpt, hw⟩ := find_split id.isIdOf s.todos todo hf
  have hid : id.isIdOf (updatedTodo newDate now body todo) = true := by
    cases id
    · exact hpt
    · exact hpt
  refine ⟨updatedTodo newDate now body todo, ?_, hid, ?_, ?_, ?_, ?_, ?_, ?_, rfl⟩
  · rw [update_accept newDate now id body s todo hf
      ((update_title_accepted_iff _).mpr htitle) hdue]
  · rw [update_accept newDate now id body s todo hf
      ((update_title_accepted_iff _).mpr htitle) hdue]
    show (assignFirst id.isIdOf _ s.todos).find? id.isIdOf = _
    rw [hw]
    exact find_of_split _ _ _ _ hpre hid
  · intro h; simp [updatedTodo, (isDefined_iff _).mpr h]
  · intro h; simp [updatedTodo, (isDefined_iff _).mpr h]
  · intro h ht
    rcases hdue with h2 | h2
    · rw [ht] at h2; cases h2
    · simp [updatedTodo, (isDefined_iff _).mpr h, ht, h2]
  · intro h ht; simp [updatedTodo, (isDefined_iff _).mpr h, ht]
  · intro h; simp [updatedTodo, (isDefined_iff _).mpr h]

/-- Witness of C4: `PUT /todos/1` with `{dueAt: "", done: 1}` on a record that is due
clears the due time and sets `done`. -/
theorem update_success_witness :
    ∃ r, (updateTodo sampleDate 9 (.int 1) ⟨.undefined, .undefined, .str "", .num 1 0⟩
        ⟨[⟨1, .str "A", .str "", some 5, false, 0, 0⟩], 2⟩).1 = ⟨200, .todo r⟩ ∧
      r.dueAt = none ∧ r.done = true ∧ r.updatedAt = 9 := by
  obtain ⟨r, h1, _, _, _, _, _, h2, h3, h4⟩ :=
    update_success sampleDate 9 (.int 1) ⟨.undefined, .undefined, .str "", .num 1 0⟩
      ⟨[⟨1, .str "A", .str "", some 5, false, 0, 0⟩], 2⟩
      ⟨_, List.mem_singleton.mpr rfl, by decide⟩ (Or.inl rfl) (Or.inl (by decide))
  exact ⟨r, h1, h2 (by simp) (by decide), (h3 (by simp)).trans (by decide), h4⟩

/-- C5 (update frame). For every `PUT /todos/:id` answered 200 the collection splits
around the record found: the records before and after it are the same afterwards, in
the same places, so length and order are kept; the record returned takes the place
of the one found, has its id and `createdAt`, and keeps each of title, description,
`dueAt` and `done` that the body does not provide; the id counter keeps its value. -/
theorem update_frame (newDate : JVal → Option Int) (now : Int) (id : IdParam) (body : Body)
    (s : State) (hok : (updateTodo newDate now id body s).1.status = 200) :
    ∃ pre old post r,
      s.todos = pre ++ old :: post ∧
      (∀ x ∈ pre, id.isIdOf x = false) ∧ id.isIdOf old = true ∧
      (updateTodo newDate now id body s).1.body = .todo r ∧
      (updateTodo newDate now id body s).2.todos = pre ++ r :: post ∧
      (updateTodo newDate now id body s).2.todos.length = s.todos.length ∧
      (updateTodo newDate now id body s).2.nextId = s.nextId ∧
      r.id = old.id ∧ r.createdAt = old.createdAt ∧
      (body.title = .undefined → r.title = old.title) ∧
      (body.description = .undefined → r.description = old.description) ∧
      (body.dueAt = .undefined → r.dueAt = old.dueAt) ∧
      (body.done = .undefined → r.done = old.done) := by
  cases hf : s.todos.find? id.isIdOf with
  | none =>
    rw [update_not_found newDate now id body s hf] at hok
    simp at hok
  | some todo =>
    by_cases ht :
        (body.title.isDefined && (!body.title.truthy || body.title.typeof != "string")) = true
    · rw [update_reject_title newDate now id body s todo hf ht] at hok
      simp at hok
    · have ht2 : (body.title.isDefined &&
          (!body.title.truthy || body.title.typeof != "string")) = false := by simpa using ht
      by_cases hd : body.dueAt.truthy = true ∧ newDate body.dueAt = none
      · rw [update_reject_dueAt newDate now id body s todo hf ht2 hd.1 hd.2] at hok
        simp at hok
      · have hdue : body.dueAt.truthy = false ∨ newDate body.dueAt ≠ none := by
          by_cases h1 : body.dueAt.truthy = true
          · exact Or.inr (fun hn => hd ⟨h1, hn⟩)
          · exact Or.inl (by simpa using h1)
        obtain ⟨pre, post, hl, hpre, hpt, hw⟩ := find_split id.isIdOf s.todos todo hf
        rw [update_accept newDate now id body s todo hf ht2 hdue]
        refine ⟨pre, todo, post, updatedTodo newDate now body todo, hl, hpre, hpt, rfl,
          hw _, ?_, rfl, rfl, rfl, ?_, ?_, ?_, ?_⟩
        · show (assignFirst id.isIdOf _ s.todos).length = _
          rw [hw, hl]; simp
        · intro h; simp [updatedTodo, h, JVal.isDefined]
        · intro h; simp [updatedTodo, h, JVal.isDefined]
        · intro h; simp [updatedTodo, h, JVal.isDefined]
        · intro h; simp [updatedTodo, h, JVal.isDefined]

/-- Witness of C5: `PUT /todos/2` with `{done: true}` on a collection of three records
changes `done` and `updatedAt` of the second record only. -/
theorem update_frame_witness :
    ∃ pre old post r,
      [(⟨1, .str "A", .str "", none, false, 0, 0⟩ : Todo),
        ⟨2, .str "B", .str "b", some 5, false, 1, 1⟩,
        ⟨3, .str "C", .str "", none, false, 2, 2⟩] = pre ++ old :: post ∧
      (updateTodo sampleDate 9 (.int 2) ⟨.undefined, .undefined, .undefined, .bool true⟩
        ⟨[⟨1, .str "A", .str "", none, false, 0, 0⟩,
          ⟨2, .str "B", .str "b", some 5, false, 1, 1⟩,
          ⟨3, .str "C", .str "", none, false, 2, 2⟩], 4⟩).2.todos = pre ++ r :: post ∧
      r.title = old.title ∧ r.description = old.description ∧ r.dueAt = old.dueAt := by
  obtain ⟨pre, old, post, r, h1, _, _, _, h2, _, _, _, _, h3, h4, h5, _⟩ :=
    update_frame sampleDate 9 (.int 2) ⟨.undefined, .undefined, .undefined, .bool true⟩
      ⟨[⟨1, .str "A", .str "", none, false, 0, 0⟩,
        ⟨2, .str "B", .str "b", some 5, false, 1, 1⟩,
        ⟨3, .str "C", .str "", none, false, 2, 2⟩], 4⟩ rfl
  exact ⟨pre, old, post, r, h1, h2, h3 rfl, h4 rfl, h5 rfl⟩

/-- C6 (update failure conditions). `PUT /todos/:id` answers 404 exactly when no
record of the collection has the id, whatever the body; it answers 400 exactly when a
record has the id and the title is provided and is the empty string or no string, or
`dueAt` is truthy and no valid date; it answers 200 exactly when a record has the id
and neither is the case. -/
theorem update_status (newDate : JVal → Option Int) (now : Int) (id : IdParam) (body : Body)
    (s : State) :
    ((updateTodo newDate now id body s).1.status = 404 ↔
      ¬ ∃ t ∈ s.todos, id.isIdOf t = true) ∧
    ((updateTodo newDate now id body s).1.status = 400 ↔
      (∃ t ∈ s.todos, id.isIdOf t = true) ∧
        ((body.title ≠ .undefined ∧ (body.title = .str "" ∨ body.title.typeof ≠ "string")) ∨
          (body.dueAt.truthy = true ∧ newDate body.dueAt = none))) ∧
    ((updateTodo newDate now id body s).1.status = 200 ↔
      (∃ t ∈ s.todos, id.isIdOf t = true) ∧
        ¬ ((body.title ≠ .undefined ∧ (body.title = .str "" ∨ body.title.typeof ≠ "string")) ∨
          (body.dueAt.truthy = true ∧ newDate body.dueAt = none))) := by
  rw [← update_title_rejected_iff]
  cases hf : s.todos.find? id.isIdOf with
  | none =>
    have hno : ¬ ∃ t ∈ s.todos, id.isIdOf t = true := by
      rintro ⟨t, hm, hp⟩
      obtain ⟨x, hx⟩ := find_some_of_mem _ _ t hm hp
      rw [hf] at hx; cases hx
    rw [update_not_found newDate now id body s hf]
    simp only [hno, false_and, not_false_eq_true, iff_true, iff_false, true_and]
    decide
  | some todo =>
    have hyes : ∃ t ∈ s.todos, id.isIdOf t = true :=
      ⟨todo, List.mem_of_find?_eq_some hf, List.find?_some hf⟩
    by_cases ht :
        (body.title.isDefined && (!body.title.truthy || body.title.typeof != "string")) = true
    · rw [update_reject_title newDate now id body s todo hf ht]
      simp only [hyes, ht, true_or, not_true_eq_false, and_self, and_false, iff_true, iff_false,
        true_and]
      decide
    · have ht2 : (body.title.isDefined &&
          (!body.title.truthy || body.title.typeof != "string")) = false := by simpa using ht
      by_cases hd : body.dueAt.truthy = true ∧ newDate body.dueAt = none
      · rw [update_reject_dueAt newDate now id body s todo hf ht2 hd.1 hd.2]
        simp only [hyes, hd, and_self, or_true, not_true_eq_false, and_false, iff_true,
          iff_false, true_and]
        decide
      · have hdue : body.dueAt.truthy = false ∨ newDate body.dueAt ≠ none := by
          by_cases h1 : body.dueAt.truthy = true
          · exact Or.inr (fun hn => hd ⟨h1, hn⟩)
          · exact Or.inl (by simpa using h1)
        rw [update_accept newDate now id body s todo hf ht2 hdue]
        simp only [hyes, ht, hd, or_self, not_false_eq_true, and_true, and_false, iff_true,
          iff_false, not_true_eq_false, true_and]
        decide

/-! ## Theorems: mark done and delete, equations -/

/-- No record with the id: `POST /todos/:id/done` answers 404, the state is as it was. -/
theorem markDone_not_found (now : Int) (id : IdParam) (s : State)
    (h : s.todos.find? id.isIdOf = none) :
    markDone now id s = (⟨404, .error "Todo not found."⟩, s) := by
  unfold markDone
  rw [h]

/-- A record found: `POST /todos/:id/done` answers 200 with the record whose `done` is
true and whose `updatedAt` is the clock reading, written in place of the one found. -/
theorem markDone_found (now : Int) (id : IdParam) (s : State) (todo : Todo)
    (h : s.todos.find? id.isIdOf = some todo) :
    markDone now id s =
      (⟨200, .todo { todo with done := true, updatedAt := now }⟩,
       ⟨assignFirst id.isIdOf { todo with done := true, updatedAt := now } s.todos,
        s.nextId⟩) := by
  unfold markDone
  rw [h]

/-- The index `findIndex` returns is the length of the unmatched prefix. -/
theorem findIdx_of_split (p : Todo → Bool) (pre post : List Todo) (t : Todo)
    (hpre : ∀ x ∈ pre, p x = false) (ht : p t = true) :
    (pre ++ t :: post).findIdx? p = some pre.length := by
  induction pre with
  | nil => simp [List.findIdx?_cons, ht]
  | cons x xs ih =>
    have hx : p x = false := hpre x (by simp)
    have ih2 := ih (fun y hy => hpre y (by simp [hy]))
    simp [List.findIdx?_cons, hx, List.findIdx?_succ, ih2]

/-- Removing one element at the length of the prefix. -/
theorem splice_of_split (pre post : List Todo) (t : Todo) :
    splice (pre ++ t :: post) pre.length 1 = ([t], pre ++ post) := by
  simp [splice]

/-- No record with the id: `DELETE /todos/:id` answers 404, the state is as it was. -/
theorem delete_not_found (id : IdParam) (s : State)
    (h : ∀ t ∈ s.todos, id.isIdOf t = false) :
    deleteTodo id s = (⟨404, .error "Todo not found."⟩, s) := by
  have hn : s.todos.findIdx? id.isIdOf = none := by
    rw [List.findIdx?_eq_none_iff]
    exact h
  unfold deleteTodo
  rw [hn]

/-- A record found after an unmatched prefix: `DELETE /todos/:id` answers 200 with it
and leaves the prefix followed by the rest. -/
theorem delete_found (id : IdParam) (s : State) (pre post : List Todo) (t : Todo)
    (hl : s.todos = pre ++ t :: post) (hpre : ∀ x ∈ pre, id.isIdOf x = false)
    (ht : id.isIdOf t = true) :
    deleteTodo id s = (⟨200, .todo t⟩, ⟨pre ++ post, s.nextId⟩) := by
  unfold deleteTodo
  rw [hl, findIdx_of_split _ _ _ _ hpre ht]
  simp only [splice_of_split, List.head?_cons]

/-! ## Theorems: the id discipline holds in every reachable state -/

/-- Two records matched by the same id parameter have the same id. -/
theorem isIdOf_id_eq (id : IdParam) (a b : Todo) (ha : id.isIdOf a = true)
    (hb : id.isIdOf b = true) : a.id = b.id := by
  cases id with
  | other => simp [IdParam.isIdOf] at ha
  | int i =>
    simp only [IdParam.isIdOf, beq_iff_eq] at ha hb
    exact_mod_cast ha.trans hb.symm

/-- Writing a record with the same id through the reference keeps the list of ids. -/
theorem ids_assignFirst (p : Todo → Bool) (l : List Todo) (todo r : Todo)
    (h : l.find? p = some todo) (hid : r.id = todo.id) :
    (assignFirst p r l).map Todo.id = l.map Todo.id := by
  obtain ⟨pre, post, hl, -, -, hw⟩ := find_split p l todo h
  rw [hw, hl]
  simp [hid]

/-- The startup state is well formed. -/
theorem wellFormed_init : WellFormed State.init := by
  simp [WellFormed, State.init, State.ids]

/-- `POST /todos` keeps the id discipline. -/
theorem wellFormed_create (newDate : JVal → Option Int) (now : Int) (body : Body) (s : State)
    (h : WellFormed s) : WellFormed (createTodo newDate now body s).2 := by
  by_cases ht : (!body.title.truthy || body.title.typeof != "string") = true
  · rw [create_reject_title newDate now body s ht]; exact h
  · have ht2 : (!body.title.truthy || body.title.typeof != "string") = false := by
      simpa using ht
    by_cases hd : body.dueAt.truthy = true ∧ newDate body.dueAt = none
    · rw [create_reject_dueAt newDate now body s ht2 hd.1 hd.2]; exact h
    · have hok : body.dueAt.truthy = false ∨ newDate body.dueAt ≠ none := by
        by_cases h1 : body.dueAt.truthy = true
        · exact Or.inr (fun hn => hd ⟨h1, hn⟩)
        · exact Or.inl (by simpa using h1)
      rw [create_accept newDate now body s ht2 hok]
      obtain ⟨hp, hb, hn⟩ := h
      refine ⟨?_, ?_, Nat.le_succ_of_le hn⟩
      · simp only [State.ids, List.map_append, List.map_cons, List.map_nil, createdTodo]
        rw [List.pairwise_append]
        refine ⟨hp, List.pairwise_singleton _ _, ?_⟩
        intro a ha b hb2
        rw [List.mem_singleton] at hb2
        rw [hb2]
        exact (hb a ha).2
      · intro i hi
        simp only [State.ids, List.map_append, List.map_cons, List.map_nil, createdTodo,
          List.mem_append, List.mem_singleton] at hi
        rcases hi with hi | hi
        · exact ⟨(hb i hi).1, Nat.lt_succ_of_lt (hb i hi).2⟩
        · subst hi
          exact ⟨hn, Nat.lt_succ_self _⟩

/-- A state with the same ids and the same counter is well formed too. -/
theorem wellFormed_of_ids_eq (s u : State) (h : WellFormed s) (hi : u.ids = s.ids)
    (hn : u.nextId = s.nextId) : WellFormed u := by
  unfold WellFormed
  rw [hi, hn]
  exact h

/-- `PUT /todos/:id` keeps the ids and the counter, whatever it answers. -/
theorem update_ids (newDate : JVal → Option Int) (now : Int) (id : IdParam) (body : Body)
    (s : State) :
    (updateTodo newDate now id body s).2.ids = s.ids ∧
      (updateTodo newDate now id body s).2.nextId = s.nextId := by
  cases hf : s.todos.find? id.isIdOf with
  | none => rw [update_not_found newDate now id body s hf]; exact ⟨rfl, rfl⟩
  | some todo =>
    by_cases ht :
        (body.title.isDefined && (!body.title.truthy || body.title.typeof != "string")) = true
    · rw [update_reject_title newDate now id body s todo hf ht]; exact ⟨rfl, rfl⟩
    · have ht2 : (body.title.isDefined &&
          (!body.title.truthy || body.title.typeof != "string")) = false := by simpa using ht
      by_cases hd : body.dueAt.truthy = true ∧ newDate body.dueAt = none
      · rw [update_reject_dueAt newDate now id body s todo hf ht2 hd.1 hd.2]
        exact ⟨ids_assignFirst _ _ todo _ hf rfl, rfl⟩
      · have hdue : body.dueAt.truthy = false ∨ newDate body.dueAt ≠ none := by
          by_cases h1 : body.dueAt.truthy = true
          · exact Or.inr (fun hn => hd ⟨h1, hn⟩)
          · exact Or.inl (by simpa using h1)
        rw [update_accept newDate now id body s todo hf ht2 hdue]
        exact ⟨ids_assignFirst _ _ todo _ hf rfl, rfl⟩

/-- `POST /todos/:id/done` keeps the ids and the counter. -/
theorem markDone_ids (now : Int) (id : IdParam) (s : State) :
    (markDone now id s).2.ids = s.ids ∧ (markDone now id s).2.nextId = s.nextId := by
  cases hf : s.todos.find? id.isIdOf with
  | none => rw [markDone_not_found now id s hf]; exact ⟨rfl, rfl⟩
  | some todo =>
    rw [markDone_found now id s todo hf]
    exact ⟨ids_assignFirst _ _ todo _ hf rfl, rfl⟩

/-- `DELETE /todos/:id` leaves a sublist of the records and keeps the counter. -/
theorem delete_sublist (id : IdParam) (s : State) :
    (deleteTodo id s).2.todos.Sublist s.todos ∧ (deleteTodo id s).2.nextId = s.nextId := by
  cases hf : s.todos.find? id.isIdOf with
  | none =>
    rw [delete_not_found id s (by simpa [List.find?_eq_none] using hf)]
    exact ⟨List.Sublist.refl _, rfl⟩
  | some todo =>
    obtain ⟨pre, post, hl, hpre, hpt, -⟩ := find_split id.isIdOf s.todos todo hf
    rw [delete_found id s pre post todo hl hpre hpt, hl]
    exact ⟨List.Sublist.append (List.Sublist.refl _) (List.sublist_cons_self _ _), rfl⟩

/-- `DELETE /todos/:id` keeps the id discipline. -/
theorem wellFormed_delete (id : IdParam) (s : State) (h : WellFormed s) :
    WellFormed (deleteTodo id s).2 := by
  obtain ⟨hsub, hn⟩ := delete_sublist id s
  obtain ⟨hp, hb, h1⟩ := h
  have hmap : (deleteTodo id s).2.ids.Sublist s.ids := hsub.map Todo.id
  refine ⟨hp.sublist hmap, ?_, by rw [hn]; exact h1⟩
  intro i hi
  rw [hn]
  exact hb i (hmap.subset hi)

/-- Every request keeps the id discipline. -/
theorem wellFormed_handle (newDate : JVal → Option Int) (now : Int) (req : Request) (s : State)
    (h : WellFormed s) : WellFormed (handle newDate now req s).2 := by
  cases req with
  | create body => exact wellFormed_create newDate now body s h
  | list => exact h
  | get id =>
    show WellFormed (getTodo id s).2
    unfold getTodo
    cases s.todos.find? id.isIdOf <;> exact h
  | update id body =>
    exact wellFormed_of_ids_eq s _ h (update_ids newDate now id body s).1
      (update_ids newDate now id body s).2
  | delete id => exact wellFormed_delete id s h
  | done id =>
    exact wellFormed_of_ids_eq s _ h (markDone_ids now id s).1 (markDone_ids now id s).2
  | remaining => exact h
  | health => exact h

/-- Every reachable state is well formed. -/
theorem wellFormed_of_reachable (newDate : JVal → Option Int) (s : State)
    (h : Reachable newDate s) : WellFormed s := by
  induction h with
  | init => exact wellFormed_init
  | step now req _ ih => exact wellFormed_handle newDate now req _ ih

/-- In a well-formed state `find` returns every record that has the id asked for:
there is no second one before it. -/
theorem find_of_mem_wellFormed (id : IdParam) (s : State) (h : WellFormed s) (t : Todo)
    (hm : t ∈ s.todos) (hp : id.isIdOf t = true) : s.todos.find? id.isIdOf = some t := by
  obtain ⟨x, hx⟩ := find_some_of_mem id.isIdOf s.todos t hm hp
  obtain ⟨pre, post, hl, hpre, hpx, -⟩ := find_split id.isIdOf s.todos x hx
  have hpw : (s.todos.map Todo.id).Pairwise (· < ·) := h.1
  rw [hl] at hm hpw
  rcases List.mem_append.mp hm with hm | hm
  · rw [hpre t hm] at hp; cases hp
  · rcases List.mem_cons.mp hm with hm | hm
    · rw [hx, hm]
    · exfalso
      rw [List.map_append, List.map_cons, List.pairwise_append] at hpw
      have hlt := (List.pairwise_cons.mp hpw.2.1).1 t.id (List.mem_map_of_mem _ hm)
      rw [isIdOf_id_eq id x t hpx hp] at hlt
      exact Nat.lt_irrefl _ hlt

/-- A `POST /todos` answered 201 is the accepted case. -/
theorem create_of_status_201 (newDate : JVal → Option Int) (now : Int) (body : Body) (s : State)
    (h : (createTodo newDate now body s).1.status = 201) :
    createTodo newDate now body s =
      (⟨201, .todo (createdTodo newDate now body s)⟩,
       ⟨s.todos ++ [createdTodo newDate now body s], s.nextId + 1⟩) := by
  by_cases ht : (!body.title.truthy || body.title.typeof != "string") = true
  · rw [create_reject_title newDate now body s ht] at h
    simp at h
  · have ht2 : (!body.title.truthy || body.title.typeof != "string") = false := by
      simpa using ht
    by_cases hd : body.dueAt.truthy = true ∧ newDate body.dueAt = none
    · rw [create_reject_dueAt newDate now body s ht2 hd.1 hd.2] at h
      simp at h
    · have hok : body.dueAt.truthy = false ∨ newDate body.dueAt ≠ none := by
        by_cases h1 : body.dueAt.truthy = true
        · exact Or.inr (fun hn => hd ⟨h1, hn⟩)
        · exact Or.inl (by simpa using h1)
      exact create_accept newDate now body s ht2 hok

/-! ## Theorems: get, delete, mark done, remaining -/

/-- C7 (get by id). In every state reachable from startup, `GET /todos/:id` answers
200 with the record of the collection that has the id, whichever record of the
collection that is, and 404 when no record has it; right after a `POST /todos`
answered 201, a get of the id in the answer returns exactly the record in the
answer. None of these changes the state. -/
theorem get_by_id (newDate : JVal → Option Int) (s : State) (hr : Reachable newDate s)
    (id : IdParam) :
    (∀ t ∈ s.todos, id.isIdOf t = true → getTodo id s = (⟨200, .todo t⟩, s)) ∧
    ((∀ t ∈ s.todos, id.isIdOf t = false) →
      getTodo id s = (⟨404, .error "Todo not found."⟩, s)) ∧
    (∀ now body, (createTodo newDate now body s).1.status = 201 →
      ∃ r, (createTodo newDate now body s).1 = ⟨201, .todo r⟩ ∧
        getTodo (.int r.id) (createTodo newDate now body s).2 =
          (⟨200, .todo r⟩, (createTodo newDate now body s).2)) := by
  refine ⟨?_, ?_, ?_⟩
  · intro t hm hp
    unfold getTodo
    rw [find_of_mem_wellFormed id s (wellFormed_of_reachable newDate s hr) t hm hp]
  · intro hno
    have hf : s.todos.find? id.isIdOf = none := by
      rw [List.find?_eq_none]
      intro x hx
      simp [hno x hx]
    unfold getTodo
    rw [hf]
  · intro now body h201
    have hwf : WellFormed (createTodo newDate now body s).2 :=
      wellFormed_create newDate now body s (wellFormed_of_reachable newDate s hr)
    have hacc := create_of_status_201 newDate now body s h201
    refine ⟨createdTodo newDate now body s, by rw [hacc], ?_⟩
    unfold getTodo
    rw [find_of_mem_wellFormed _ _ hwf (createdTodo newDate now body s)
      (by rw [hacc]; simp) (by simp [IdParam.isIdOf])]

/-- Witness of C7: after `{title: "A"}` is created at startup, `GET /todos/1` returns
the record created. -/
theorem get_by_id_witness :
    getTodo (.int 1)
        (handle sampleDate 5 (.create ⟨.str "A", .undefined, .undefined, .undefined⟩)
          State.init).2 =
      (⟨200, .todo ⟨1, .str "A", .str "", none, false, 5, 5⟩⟩,
       ⟨[⟨1, .str "A", .str "", none, false, 5, 5⟩], 2⟩) :=
  (get_by_id sampleDate _
    (Reachable.step 5 (.create ⟨.str "A", .undefined, .undefined, .undefined⟩) Reachable.init)
    (.int 1)).1 ⟨1, .str "A", .str "", none, false, 5, 5⟩ (List.Mem.head _) rfl

/-- C8 (delete). In every reachable state, `DELETE /todos/:id` answers 404 and leaves
the state as it was when no record has the id. When a record `t` has it, the
collection splits as `pre ++ t :: post`, the answer is 200 with `t`, the new
collection is `pre ++ post` (the other records, unchanged and in the same order) and
the counter is kept; afterwards `GET /todos/:id` answers 404, and `GET /todos`
returns `pre ++ post`, which holds neither `t` nor any record with the id. -/
theorem delete_spec (newDate : JVal → Option Int) (s : State) (hr : Reachable newDate s)
    (id : IdParam) :
    ((∀ t ∈ s.todos, id.isIdOf t = false) →
      deleteTodo id s = (⟨404, .error "Todo not found."⟩, s)) ∧
    (∀ t ∈ s.todos, id.isIdOf t = true →
      ∃ pre post, s.todos = pre ++ t :: post ∧
        deleteTodo id s = (⟨200, .todo t⟩, ⟨pre ++ post, s.nextId⟩) ∧
        getTodo id (deleteTodo id s).2 =
          (⟨404, .error "Todo not found."⟩, (deleteTodo id s).2) ∧
        (listTodos (deleteTodo id s).2).1 = ⟨200, .todos (pre ++ post)⟩ ∧
        t ∉ pre ++ post ∧ ∀ x ∈ pre ++ post, id.isIdOf x = false) := by
  refine ⟨delete_not_found id s, ?_⟩
  intro t hm hp
  have hwf := wellFormed_of_reachable newDate s hr
  have hf := find_of_mem_wellFormed id s hwf t hm hp
  obtain ⟨pre, post, hl, hpre, -, -⟩ := find_split id.isIdOf s.todos t hf
  have hdel := delete_found id s pre post t hl hpre hp
  have hnone : ∀ x ∈ pre ++ post, id.isIdOf x = false := by
    intro x hx
    rcases List.mem_append.mp hx with hx | hx
    · exact hpre x hx
    · cases hpx : id.isIdOf x with
      | false => rfl
      | true =>
        exfalso
        have hpw : (s.todos.map Todo.id).Pairwise (· < ·) := hwf.1
        rw [hl, List.map_append, List.map_cons, List.pairwise_append] at hpw
        have hlt := (List.pairwise_cons.mp hpw.2.1).1 x.id (List.mem_map_of_mem _ hx)
        rw [isIdOf_id_eq id t x hp hpx] at hlt
        exact Nat.lt_irrefl _ hlt
  refine ⟨pre, post, hl, hdel, ?_, ?_, ?_, hnone⟩
  · have hf2 : (pre ++ post).find? id.isIdOf = none := by
      rw [List.find?_eq_none]
      intro x hx
      simp [hnone x hx]
    rw [hdel]
    unfold getTodo
    rw [hf2]
  · rw [hdel]; rfl
  · intro hmem
    rw [hnone t hmem] at hp
    cases hp

/-- Witness of C8: after `{title: "A"}` is created at startup, `DELETE /todos/1`
returns the record and leaves the collection empty. -/
theorem delete_spec_witness :
    deleteTodo (.int 1)
        (handle sampleDate 5 (.create ⟨.str "A", .undefined, .undefined, .undefined⟩)
          State.init).2 =
      (⟨200, .todo ⟨1, .str "A", .str "", none, false, 5, 5⟩⟩, ⟨[], 2⟩) := by
  obtain ⟨pre, post, hl, hdel, -⟩ := (delete_spec sampleDate _
    (Reachable.step 5 (.create ⟨.str "A", .undefined, .undefined, .undefined⟩) Reachable.init)
    (.int 1)).2 ⟨1, .str "A", .str "", none, false, 5, 5⟩ (List.Mem.head _) rfl
  exact rfl

/-- C9 (mark done is idempotent). When a record has the id, the collection splits as
`pre ++ old :: post` with `old` the first record that has it; `POST /todos/:id/done`
at time `now1` answers 200 with `old` made done and stamped `now1`, stored in place
of `old`; a second call at time `now2` answers 200 too, and the state after it is the
state after the first call except that the record is stamped `now2`. -/
theorem markDone_twice (now1 now2 : Int) (id : IdParam) (s : State)
    (hex : ∃ t ∈ s.todos, id.isIdOf t = true) :
    ∃ pre old post,
      s.todos = pre ++ old :: post ∧
      (∀ x ∈ pre, id.isIdOf x = false) ∧ id.isIdOf old = true ∧
      markDone now1 id s =
        (⟨200, .todo { old with done := true, updatedAt := now1 }⟩,
         ⟨pre ++ { old with done := true, updatedAt := now1 } :: post, s.nextId⟩) ∧
      markDone now2 id (markDone now1 id s).2 =
        (⟨200, .todo { old with done := true, updatedAt := now2 }⟩,
         ⟨pre ++ { old with done := true, updatedAt := now2 } :: post, s.nextId⟩) := by
  obtain ⟨t, hm, hp⟩ := hex
  obtain ⟨old, hf⟩ := find_some_of_mem id.isIdOf s.todos t hm hp
  obtain ⟨pre, post, hl, hpre, hpo, hw⟩ := find_split id.isIdOf s.todos old hf
  have h1 : markDone now1 id s =
      (⟨200, .todo { old with done := true, updatedAt := now1 }⟩,
       ⟨pre ++ { old with done := true, updatedAt := now1 } :: post, s.nextId⟩) := by
    rw [markDone_found now1 id s old hf, hw]
  refine ⟨pre, old, post, hl, hpre, hpo, h1, ?_⟩
  have hp1 : id.isIdOf { old with done := true, updatedAt := now1 } = true := by
    cases id
    · exact hpo
    · exact hpo
  have hf2 : (markDone now1 id s).2.todos.find? id.isIdOf =
      some { old with done := true, updatedAt := now1 } := by
    rw [h1]
    exact find_of_split _ _ _ _ hpre hp1
  rw [markDone_found now2 id _ _ hf2, h1]
  show (_, State.mk (assignFirst id.isIdOf _ (pre ++ _ :: post)) _) = _
  rw [assignFirst_of_split _ _ _ _ _ hpre hp1]

/-- Witness of C9: marking record 1 done at time 7 and again at time 9. -/
theorem markDone_twice_witness :
    ∃ pre old post,
      [(⟨1, .str "A", .str "", none, false, 5, 5⟩ : Todo)] = pre ++ old :: post ∧
      markDone 9 (.int 1) (markDone 7 (.int 1) ⟨[⟨1, .str "A", .str "", none, false, 5, 5⟩], 2⟩).2 =
        (⟨200, .todo { old with done := true, updatedAt := 9 }⟩,
         ⟨pre ++ { old with done := true, updatedAt := 9 } :: post, 2⟩) := by
  obtain ⟨pre, old, post, hl, -, -, -, h2⟩ :=
    markDone_twice 7 9 (.int 1) ⟨[⟨1, .str "A", .str "", none, false, 5, 5⟩], 2⟩
      ⟨_, List.Mem.head _, rfl⟩
  exact ⟨pre, old, post, hl, h2⟩

/-- What the filter callback of `/todos-remaining` accepts: a record that is not done
and has no due time or a due time not before the clock reading. -/
theorem isRemaining_iff (now : Int) (t : Todo) :
    isRemaining now t = true ↔
      t.done = false ∧ (t.dueAt = none ∨ ∃ due, t.dueAt = some due ∧ now ≤ due) := by
  unfold isRemaining
  cases hd : t.dueAt <;> cases t.done <;> simp

/-- C10 (list remaining). For every state and clock reading, `GET /todos-remaining`
answers 200 with the records of the collection, in storage order, that are not done
and whose `dueAt` is `null` or not earlier than the clock reading, and leaves the
state as it was. So the list is a sublist of the collection, holds no record that is
done and none whose `dueAt` is before the clock reading, and holds every record that
is not done and is due exactly at the clock reading. -/
theorem listRemaining_spec (now : Int) (s : State) :
    ∃ ts, listRemaining now s = (⟨200, .todos ts⟩, s) ∧
      ts = s.todos.filter (isRemaining now) ∧
      ts.Sublist s.todos ∧
      (∀ t, t ∈ ts ↔ t ∈ s.todos ∧ t.done = false ∧
        (t.dueAt = none ∨ ∃ due, t.dueAt = some due ∧ now ≤ due)) ∧
      (∀ t, t.done = true → t ∉ ts) ∧
      (∀ t due, t.dueAt = some due → due < now → t ∉ ts) ∧
      (∀ t ∈ s.todos, t.done = false → t.dueAt = some now → t ∈ ts) := by
  have hmem : ∀ t, t ∈ s.todos.filter (isRemaining now) ↔ t ∈ s.todos ∧ t.done = false ∧
      (t.dueAt = none ∨ ∃ due, t.dueAt = some due ∧ now ≤ due) := by
    intro t
    rw [List.mem_filter, isRemaining_iff]
  refine ⟨s.todos.filter (isRemaining now), rfl, rfl, List.filter_sublist _, hmem, ?_, ?_, ?_⟩
  · intro t hd hm
    have h := ((hmem t).mp hm).2.1
    rw [hd] at h
    cases h
  · intro t due hdue hlt hm
    rcases ((hmem t).mp hm).2.2 with h | ⟨d, h, hle⟩
    · rw [hdue] at h; cases h
    · rw [hdue] at h
      cases h
      exact absurd hlt (not_lt.mpr hle)
  · intro t hm hd hdue
    exact (hmem t).mpr ⟨hm, hd, Or.inr ⟨now, hdue, le_refl _⟩⟩

/-! ## Theorems: the id counter -/

/-- A `POST /todos` answers 201 with a record whose id is the counter and moves the
counter by one, or answers 400 and leaves the state. -/
theorem create_cases (newDate : JVal → Option Int) (now : Int) (body : Body) (s : State) :
    createTodo newDate now body s =
        (⟨201, .todo (createdTodo newDate now body s)⟩,
         ⟨s.todos ++ [createdTodo newDate now body s], s.nextId + 1⟩) ∨
      ((createTodo newDate now body s).1.status = 400 ∧ (createTodo newDate now body s).2 = s) := by
  by_cases ht : (!body.title.truthy || body.title.typeof != "string") = true
  · rw [create_reject_title newDate now body s ht]
    exact Or.inr ⟨rfl, rfl⟩
  · have ht2 : (!body.title.truthy || body.title.typeof != "string") = false := by
      simpa using ht
    by_cases hd : body.dueAt.truthy = true ∧ newDate body.dueAt = none
    · rw [create_reject_dueAt newDate now body s ht2 hd.1 hd.2]
      exact Or.inr ⟨rfl, rfl⟩
    · have hok : body.dueAt.truthy = false ∨ newDate body.dueAt ≠ none := by
        by_cases h1 : body.dueAt.truthy = true
        · exact Or.inr (fun hn => hd ⟨h1, hn⟩)
        · exact Or.inl (by simpa using h1)
      exact Or.inl (create_accept newDate now body s ht2 hok)

/-- `DELETE /todos/:id` keeps the counter. -/
theorem delete_nextId (id : IdParam) (s : State) : (deleteTodo id s).2.nextId = s.nextId :=
  (delete_sublist id s).2

/-- `GET /todos/:id` leaves the state. -/
theorem get_state (id : IdParam) (s : State) : (getTodo id s).2 = s := by
  unfold getTodo
  cases s.todos.find? id.isIdOf <;> rfl

/-- Every request that is no successful create keeps the counter and hands out no id;
a successful create hands out the counter and moves it by one. -/
theorem handle_counter (newDate : JVal → Option Int) (now : Int) (req : Request) (s : State) :
    (createdId req (handle newDate now req s).1 = none ∧
        (handle newDate now req s).2.nextId = s.nextId) ∨
      (createdId req (handle newDate now req s).1 = some s.nextId ∧
        (handle newDate now req s).2.nextId = s.nextId + 1) := by
  cases req with
  | create body =>
    rcases create_cases newDate now body s with h | ⟨h1, h2⟩
    · right
      show createdId _ (createTodo newDate now body s).1 = _ ∧
        (createTodo newDate now body s).2.nextId = _
      rw [h]
      exact ⟨rfl, rfl⟩
    · left
      show createdId _ (createTodo newDate now body s).1 = _ ∧
        (createTodo newDate now body s).2.nextId = _
      rw [h2]
      refine ⟨?_, rfl⟩
      rcases hr : (createTodo newDate now body s).1 with ⟨st, pl⟩
      rw [hr] at h1
      simp only at h1
      subst h1
      cases pl <;> rfl
  | list => exact Or.inl ⟨rfl, rfl⟩
  | get id => exact Or.inl ⟨rfl, by show (getTodo id s).2.nextId = _; rw [get_state]⟩
  | update id body => exact Or.inl ⟨rfl, (update_ids newDate now id body s).2⟩
  | delete id => exact Or.inl ⟨rfl, delete_nextId id s⟩
  | done id => exact Or.inl ⟨rfl, (markDone_ids now id s).2⟩
  | remaining => exact Or.inl ⟨rfl, rfl⟩
  | health => exact Or.inl ⟨rfl, rfl⟩

/-- No request lowers the counter. -/
theorem handle_nextId_le (newDate : JVal → Option Int) (now : Int) (req : Request) (s : State) :
    s.nextId ≤ (handle newDate now req s).2.nextId := by
  rcases handle_counter newDate now req s with ⟨-, h⟩ | ⟨-, h⟩ <;> rw [h]
  exact Nat.le_succ _

/-- No run lowers the counter. -/
theorem runFrom_nextId_le (newDate : JVal → Option Int) (reqs : List (Int × Request))
    (s : State) : s.nextId ≤ (runFrom newDate s reqs).nextId := by
  induction reqs generalizing s with
  | nil => exact Nat.le_refl _
  | cons q rest ih => exact Nat.le_trans (handle_nextId_le newDate q.1 q.2 s) (ih _)

/-- A run from a reachable state ends in a reachable state. -/
theorem reachable_runFrom (newDate : JVal → Option Int) (reqs : List (Int × Request))
    (s : State) (h : Reachable newDate s) : Reachable newDate (runFrom newDate s reqs) := by
  induction reqs generalizing s with
  | nil => exact h
  | cons q rest ih => exact ih _ (Reachable.step q.1 q.2 h)

/-- A `POST /todos` answered 201 returns a record whose id is the counter before the
call, and leaves the counter one higher. -/
theorem create_201_id (newDate : JVal → Option Int) (now : Int) (body : Body) (s : State)
    (r : Todo) (h : (createTodo newDate now body s).1 = ⟨201, .todo r⟩) :
    r.id = s.nextId ∧ (createTodo newDate now body s).2.nextId = s.nextId + 1 := by
  rcases create_cases newDate now body s with hc | ⟨h1, -⟩
  · rw [hc] at h ⊢
    simp only [Response.mk.injEq, Payload.todo.injEq, true_and] at h
    rw [← h]
    exact ⟨rfl, rfl⟩
  · rw [h] at h1
    simp at h1

/-- C11 (id uniqueness). In every state reachable from startup no two records of the
collection have the same id, every id is at least 1 and below the counter, and no
request lowers the counter. Hence, when a create has returned a record, every create
answered 201 after any further run of requests (deletes included) returns a record
with a larger, so different, id. -/
theorem id_uniqueness (newDate : JVal → Option Int) (s : State) (hr : Reachable newDate s) :
    s.todos.Pairwise (fun a b => a.id ≠ b.id) ∧
    (∀ t ∈ s.todos, 1 ≤ t.id ∧ t.id < s.nextId) ∧
    (∀ now req, s.nextId ≤ (handle newDate now req s).2.nextId) ∧
    (∀ now body r, (createTodo newDate now body s).1 = ⟨201, .todo r⟩ →
      ∀ reqs now2 body2 r2,
        (createTodo newDate now2 body2
          (runFrom newDate (createTodo newDate now body s).2 reqs)).1 = ⟨201, .todo r2⟩ →
        r.id < r2.id ∧ r2.id ≠ r.id) := by
  obtain ⟨hp, hb, -⟩ := wellFormed_of_reachable newDate s hr
  refine ⟨?_, ?_, fun now req => handle_nextId_le newDate now req s, ?_⟩
  · have hp2 : s.todos.Pairwise (fun a b => a.id < b.id) := List.pairwise_map.mp hp
    exact hp2.imp (fun h => Nat.ne_of_lt h)
  · intro t ht
    exact hb t.id (List.mem_map_of_mem _ ht)
  · intro now body r h reqs now2 body2 r2 h2
    obtain ⟨hid, hn⟩ := create_201_id newDate now body s r h
    obtain ⟨hid2, -⟩ := create_201_id newDate now2 body2 _ r2 h2
    have hle := runFrom_nextId_le newDate reqs (createTodo newDate now body s).2
    rw [hn] at hle
    have hlt : r.id < r2.id := by
      rw [hid, hid2]
      exact hle
    exact ⟨hlt, Nat.ne_of_gt hlt⟩

/-- Witness of C11: "A" is created at startup and gets id 1; after `DELETE /todos/1`
the create of "B" gets id 2. -/
theorem id_uniqueness_witness :
    (⟨1, .str "A", .str "", none, false, 0, 0⟩ : Todo).id <
      (⟨2, .str "B", .str "", none, false, 2, 2⟩ : Todo).id :=
  ((id_uniqueness sampleDate State.init Reachable.init).2.2.2 0
    ⟨.str "A", .undefined, .undefined, .undefined⟩ ⟨1, .str "A", .str "", none, false, 0, 0⟩ rfl
    [(1, .delete (.int 1))] 2 ⟨.str "B", .undefined, .undefined, .undefined⟩
    ⟨2, .str "B", .str "", none, false, 2, 2⟩ rfl).1

/-- The ids handed out by a run are consecutive, starting at the counter. -/
theorem createdIds_eq_range (newDate : JVal → Option Int) (reqs : List (Int × Request))
    (s : State) :
    createdIds newDate s reqs = List.range' s.nextId (createdIds newDate s reqs).length := by
  induction reqs generalizing s with
  | nil => rfl
  | cons q rest ih =>
    have ih2 := ih (handle newDate q.1 q.2 s).2
    rcases handle_counter newDate q.1 q.2 s with ⟨hc, hn⟩ | ⟨hc, hn⟩
    · rw [hn] at ih2
      simp only [createdIds, hc, Option.toList_none, List.nil_append]
      exact ih2
    · rw [hn] at ih2
      simp only [createdIds, hc, Option.toList_some, List.singleton_append, List.length_cons,
        List.range'_succ]
      rw [← ih2]

/-- C13 (id sequence). For every sequence of requests handled from startup, the ids
returned by the creates answered 201 are 1, 2, 3, ... in this order, whatever
requests lie between them: the k-th (counting from 0) is k + 1. In particular
creating "A" and then "B" from startup gives the ids 1 and 2. -/
theorem id_sequence (newDate : JVal → Option Int) (reqs : List (Int × Request)) :
    createdIds newDate State.init reqs =
        List.range' 1 (createdIds newDate State.init reqs).length ∧
      (∀ k, k < (createdIds newDate State.init reqs).length →
        (createdIds newDate State.init reqs)[k]? = some (k + 1)) ∧
      (∀ now1 now2,
        createdIds newDate State.init
          [(now1, .create ⟨.str "A", .undefined, .undefined, .undefined⟩),
           (now2, .create ⟨.str "B", .undefined, .undefined, .undefined⟩)] = [1, 2]) := by
  have h := createdIds_eq_range newDate reqs State.init
  refine ⟨h, ?_, fun _ _ => rfl⟩
  intro k hk
  rw [h, List.getElem?_range' _ _ (by simpa using hk)]
  simp [State.init, Nat.add_comm]

/-! ## Theorems: properties of every stored record -/

/-- A run of a run: requests handled after a first sequence. -/
theorem runFrom_append (newDate : JVal → Option Int) (xs ys : List (Int × Request))
    (s : State) :
    runFrom newDate s (xs ++ ys) = runFrom newDate (runFrom newDate s xs) ys := by
  induction xs generalizing s with
  | nil => rfl
  | cons q rest ih => exact ih _

/-- The reachable states are the ends of the runs from startup. -/
theorem reachable_iff_runFrom (newDate : JVal → Option Int) (s : State) :
    Reachable newDate s ↔ ∃ reqs, runFrom newDate State.init reqs = s := by
  constructor
  · intro h
    induction h with
    | init => exact ⟨[], rfl⟩
    | step now req _ ih =>
      obtain ⟨reqs, hreqs⟩ := ih
      refine ⟨reqs ++ [(now, req)], ?_⟩
      rw [runFrom_append, hreqs]
      rfl
  · rintro ⟨reqs, rfl⟩
    exact reachable_runFrom newDate reqs State.init Reachable.init

/-- A property of records that the records written by the handlers have, whenever the
record they start from has it, holds for every record after a request. -/
theorem forall_todos_handle (P : Todo → Prop) (newDate : JVal → Option Int) (now : Int)
    (req : Request) (s : State) (hs : ∀ t ∈ s.todos, P t)
    (hcreate : ∀ body, req = .create body →
      (!body.title.truthy || body.title.typeof != "string") = false →
      P (createdTodo newDate now body s))
    (hupdate : ∀ id body old, req = .update id body → P old →
      (body.title.isDefined && (!body.title.truthy || body.title.typeof != "string")) = false →
      P (updatedTodo newDate now body old) ∧ P (titleDescriptionWritten body old))
    (hdone : ∀ old, P old → P { old with done := true, updatedAt := now }) :
    ∀ t ∈ (handle newDate now req s).2.todos, P t := by
  have hassign : ∀ (p : Todo → Bool) (old u : Todo), s.todos.find? p = some old → P u →
      ∀ t ∈ assignFirst p u s.todos, P t := by
    intro p old u hf hu t ht
    obtain ⟨pre, post, hl, -, -, hw⟩ := find_split p s.todos old hf
    rw [hw] at ht
    rcases List.mem_append.mp ht with h | h
    · exact hs t (by rw [hl]; exact List.mem_append_left _ h)
    · rcases List.mem_cons.mp h with h | h
      · rw [h]; exact hu
      · exact hs t (by rw [hl]; exact List.mem_append_right _ (List.mem_cons_of_mem _ h))
  cases req with
  | create body =>
    show ∀ t ∈ (createTodo newDate now body s).2.todos, P t
    by_cases ht : (!body.title.truthy || body.title.typeof != "string") = true
    · rw [create_reject_title newDate now body s ht]; exact hs
    · have ht2 : (!body.title.truthy || body.title.typeof != "string") = false := by
        simpa using ht
      rcases create_cases newDate now body s with h | ⟨-, h⟩
      · rw [h]
        intro t hm
        rcases List.mem_append.mp hm with hm | hm
        · exact hs t hm
        · rw [List.mem_singleton.mp hm]
          exact hcreate body rfl ht2
      · rw [h]; exact hs
  | list => exact hs
  | get id =>
    show ∀ t ∈ (getTodo id s).2.todos, P t
    rw [get_state]; exact hs
  | update id body =>
    show ∀ t ∈ (updateTodo newDate now id body s).2.todos, P t
    cases hf : s.todos.find? id.isIdOf with
    | none => rw [update_not_found newDate now id body s hf]; exact hs
    | some old =>
      have hold : P old := hs old (List.mem_of_find?_eq_some hf)
      by_cases ht :
          (body.title.isDefined && (!body.title.truthy || body.title.typeof != "string")) = true
      · rw [update_reject_title newDate now id body s old hf ht]; exact hs
      · have ht2 : (body.title.isDefined &&
            (!body.title.truthy || body.title.typeof != "string")) = false := by simpa using ht
        obtain ⟨hu, hw⟩ := hupdate id body old rfl hold ht2
        by_cases hd : body.dueAt.truthy = true ∧ newDate body.dueAt = none
        · rw [update_reject_dueAt newDate now id body s old hf ht2 hd.1 hd.2]
          exact hassign _ old _ hf hw
        · have hdue : body.dueAt.truthy = false ∨ newDate body.dueAt ≠ none := by
            by_cases h1 : body.dueAt.truthy = true
            · exact Or.inr (fun hn => hd ⟨h1, hn⟩)
            · exact Or.inl (by simpa using h1)
          rw [update_accept newDate now id body s old hf ht2 hdue]
          exact hassign _ old _ hf hu
  | delete id =>
    intro t ht
    exact hs t ((delete_sublist id s).1.subset ht)
  | done id =>
    show ∀ t ∈ (markDone now id s).2.todos, P t
    cases hf : s.todos.find? id.isIdOf with
    | none => rw [markDone_not_found now id s hf]; exact hs
    | some old =>
      rw [markDone_found now id s old hf]
      exact hassign _ old _ hf (hdone old (hs old (List.mem_of_find?_eq_some hf)))
  | remaining => exact hs
  | health => exact hs

/-- C12 (title invariant). In every state reachable from startup by any requests,
updates answered with an error included, the title of every record of the collection
is a non-empty string. -/
theorem title_invariant (newDate : JVal → Option Int) (s : State) (hr : Reachable newDate s) :
    ∀ t ∈ s.todos, ∃ str, t.title = .str str ∧ str ≠ "" := by
  induction hr with
  | init => intro t ht; cases ht
  | step now req _ ih =>
    refine forall_todos_handle _ newDate now req _ ih ?_ ?_ ?_
    · intro body _ ht
      exact (title_accepted_iff _).mp ht
    · intro id body old _ hold ht
      have h : ∃ str, (if body.title.isDefined then body.title else old.title) = .str str ∧
          str ≠ "" := by
        rcases (update_title_accepted_iff _).mp ht with h | h
        · simpa [h, JVal.isDefined] using hold
        · obtain ⟨str, hstr, hne⟩ := h
          exact ⟨str, by simp [hstr, JVal.isDefined], hne⟩
      exact ⟨h, h⟩
    · intro old hold
      exact hold

/-- Witness of C12: after "A" is created and `PUT /todos/1` with
`{title: "B", dueAt: "not-a-date"}` is answered 400, the stored title is the string
"B". -/
theorem title_invariant_witness :
    ∃ str, (JVal.str "B") = .str str ∧ str ≠ "" :=
  title_invariant sampleDate _
    (Reachable.step 1
      (.update (.int 1) ⟨.str "B", .undefined, .str "not-a-date", .undefined⟩)
      (Reachable.step 0 (.create ⟨.str "A", .undefined, .undefined, .undefined⟩)
        Reachable.init))
    ⟨1, .str "B", .str "", none, false, 0, 0⟩ (List.Mem.head _)

/-- C14 (list order). `GET /todos` returns the whole collection as stored. In every
state reachable from startup the ids of the stored records increase strictly along
the collection; an update and a mark-done keep the list of ids as it is, and a delete
leaves a sublist of the collection, so none of them reorders the records that
remain. -/
theorem list_order (newDate : JVal → Option Int) (s : State) (hr : Reachable newDate s) :
    listTodos s = (⟨200, .todos s.todos⟩, s) ∧
    (s.todos.map Todo.id).Pairwise (· < ·) ∧
    (∀ now id body, (updateTodo newDate now id body s).2.todos.map Todo.id =
      s.todos.map Todo.id) ∧
    (∀ now id, (markDone now id s).2.todos.map Todo.id = s.todos.map Todo.id) ∧
    (∀ id, (deleteTodo id s).2.todos.Sublist s.todos) :=
  ⟨rfl, (wellFormed_of_reachable newDate s hr).1,
    fun now id body => (update_ids newDate now id body s).1,
    fun now id => (markDone_ids now id s).1,
    fun id => (delete_sublist id s).1⟩

/-- Witness of C14: after "A", "B" and "C" are created and record 2 is deleted, the
ids listed are 1 and 3. -/
theorem list_order_witness :
    ([1, 3] : List Nat).Pairwise (· < ·) :=
  (list_order sampleDate
    (runFrom sampleDate State.init
      [(0, .create ⟨.str "A", .undefined, .undefined, .undefined⟩),
       (1, .create ⟨.str "B", .undefined, .undefined, .undefined⟩),
       (2, .create ⟨.str "C", .undefined, .undefined, .undefined⟩),
       (3, .delete (.int 2))])
    (reachable_runFrom sampleDate _ State.init Reachable.init)).2.1

/-- C15 as stated fails: `POST /todos` with `{title: "A", description: 5}` at startup
is answered 201 and stores a record whose description is the number 5, no string. -/
theorem description_not_text :
    Reachable sampleDate
        (handle sampleDate 0 (.create ⟨.str "A", .num 5 0, .undefined, .undefined⟩)
          State.init).2 ∧
      (handle sampleDate 0 (.create ⟨.str "A", .num 5 0, .undefined, .undefined⟩)
          State.init).2.todos = [⟨1, .str "A", .num 5 0, none, false, 0, 0⟩] ∧
      ¬ ∀ t ∈ (handle sampleDate 0 (.create ⟨.str "A", .num 5 0, .undefined, .undefined⟩)
          State.init).2.todos, ∃ str, t.description = .str str := by
  refine ⟨Reachable.step 0 _ Reachable.init, rfl, ?_⟩
  intro h
  obtain ⟨str, hstr⟩ := h ⟨1, .str "A", .num 5 0, none, false, 0, 0⟩ (List.Mem.head _)
  cases hstr

/-- Every request keeps: a stored `dueAt` is `null` or the time value `new Date` gave
for a truthy value. -/
theorem dueAt_parsed_handle (newDate : JVal → Option Int) (now : Int) (req : Request)
    (s : State)
    (hs : ∀ t ∈ s.todos, t.dueAt = none ∨ ∃ v, v.truthy = true ∧ newDate v = t.dueAt) :
    ∀ t ∈ (handle newDate now req s).2.todos,
      t.dueAt = none ∨ ∃ v, v.truthy = true ∧ newDate v = t.dueAt := by
  refine forall_todos_handle _ newDate now req s hs ?_ ?_ ?_
  · intro body _ _
    cases hd : body.dueAt.truthy
    · left; simp [createdTodo, hd]
    · right; exact ⟨body.dueAt, hd, by simp [createdTodo, hd]⟩
  · intro id body old _ hold _
    refine ⟨?_, hold⟩
    cases hdef : body.dueAt.isDefined
    · simpa [updatedTodo, hdef] using hold
    · cases hd : body.dueAt.truthy
      · left; simp [updatedTodo, hdef, hd]
      · right; exact ⟨body.dueAt, hd, by simp [updatedTodo, hdef, hd]⟩
  · intro old hold
    exact hold

/-- A request whose description is a string or missing keeps: every stored
description is a string. -/
theorem description_text_handle (newDate : JVal → Option Int) (now : Int) (req : Request)
    (s : State) (hreq : req.descriptionIsText = true)
    (hs : ∀ t ∈ s.todos, ∃ str, t.description = .str str) :
    ∀ t ∈ (handle newDate now req s).2.todos, ∃ str, t.description = .str str := by
  refine forall_todos_handle _ newDate now req s hs ?_ ?_ ?_
  · intro body hb _
    rw [hb] at hreq
    cases hv : body.description <;>
      simp [Request.descriptionIsText, JVal.isTextOrMissing, hv] at hreq
    · exact ⟨"", by simp [createdTodo, hv, JVal.truthy]⟩
    · rename_i str
      by_cases hs : str = ""
      · exact ⟨"", by simp [createdTodo, hv, JVal.truthy, hs]⟩
      · exact ⟨str, by simp [createdTodo, hv, JVal.truthy, hs]⟩
  · intro id body old hb hold _
    rw [hb] at hreq
    have h : ∃ str, (if body.description.isDefined then body.description
        else old.description) = .str str := by
      cases hv : body.description <;>
        simp [Request.descriptionIsText, JVal.isTextOrMissing, hv] at hreq
      · simpa [JVal.isDefined] using hold
      · simp [JVal.isDefined]
    exact ⟨h, h⟩
  · intro old hold
    exact hold

/-- Every run keeps the `dueAt` property of the stored records. -/
theorem dueAt_parsed_runFrom (newDate : JVal → Option Int) (reqs : List (Int × Request))
    (s : State)
    (hs : ∀ t ∈ s.todos, t.dueAt = none ∨ ∃ v, v.truthy = true ∧ newDate v = t.dueAt) :
    ∀ t ∈ (runFrom newDate s reqs).todos,
      t.dueAt = none ∨ ∃ v, v.truthy = true ∧ newDate v = t.dueAt := by
  induction reqs generalizing s with
  | nil => exact hs
  | cons q rest ih => exact ih _ (dueAt_parsed_handle newDate q.1 q.2 s hs)

/-- A run of requests whose descriptions are strings or missing keeps the stored
descriptions strings. -/
theorem description_text_runFrom (newDate : JVal → Option Int) (reqs : List (Int × Request))
    (s : State) (hreqs : ∀ q ∈ reqs, q.2.descriptionIsText = true)
    (hs : ∀ t ∈ s.todos, ∃ str, t.description = .str str) :
    ∀ t ∈ (runFrom newDate s reqs).todos, ∃ str, t.description = .str str := by
  induction reqs generalizing s with
  | nil => exact hs
  | cons q rest ih =>
    exact ih _ (fun x hx => hreqs x (List.mem_cons_of_mem _ hx))
      (description_text_handle newDate q.1 q.2 s (hreqs q (List.mem_cons_self _ _)) hs)

/-- C15 (todo shape), amended. After every run of requests from startup, whatever the
JSON bodies, every record of the collection has a `done` that is a boolean and a
`dueAt` that is `null` or a valid time value (one `new Date` gave for a truthy
value). Its description is a string when every request body of the run carried a
string as description or no description; the handlers do not check the type of the
description. -/
theorem todo_shape (newDate : JVal → Option Int) (reqs : List (Int × Request)) :
    (∀ t ∈ (runFrom newDate State.init reqs).todos,
      (t.done = true ∨ t.done = false) ∧
      (t.dueAt = none ∨ ∃ v, v.truthy = true ∧ newDate v = t.dueAt)) ∧
    ((∀ q ∈ reqs, q.2.descriptionIsText = true) →
      ∀ t ∈ (runFrom newDate State.init reqs).todos, ∃ str, t.description = .str str) := by
  refine ⟨?_, ?_⟩
  · intro t ht
    refine ⟨?_, dueAt_parsed_runFrom newDate reqs State.init (fun x hx => by cases hx) t ht⟩
    cases t.done
    · exact Or.inr rfl
    · exact Or.inl rfl
  · intro hreqs
    exact description_text_runFrom newDate reqs State.init hreqs (fun x hx => by cases hx)

/-- Witness of C15: after `POST /todos` with `{title: "A", description: "d"}` and
`PUT /todos/1` with `{description: ""}` the stored description is a string. -/
theorem todo_shape_witness :
    ∃ str, (JVal.str "") = .str str :=
  (todo_shape sampleDate
    [(0, .create ⟨.str "A", .str "d", .undefined, .undefined⟩),
     (1, .update (.int 1) ⟨.undefined, .str "", .undefined, .undefined⟩)]).2
    (by decide) ⟨1, .str "A", .str "", none, false, 0, 1⟩ (List.Mem.head _)

/-! ## Theorems: requests that leave the state, and relations between handlers -/

/-- C17 (state changes only on successful mutations). `GET /todos`, `GET /todos/:id`,
`GET /todos-remaining` and `GET /health` leave the collection and the id counter as
they were, and so does every `POST /todos`, `DELETE /todos/:id` and
`POST /todos/:id/done` that is answered 400 or 404. -/
theorem state_unchanged (newDate : JVal → Option Int) (now : Int) (s : State) :
    (listTodos s).2 = s ∧
    (∀ id, (getTodo id s).2 = s) ∧
    (listRemaining now s).2 = s ∧
    (health now s).2 = s ∧
    (∀ body, (createTodo newDate now body s).1.status = 400 ∨
        (createTodo newDate now body s).1.status = 404 →
      (createTodo newDate now body s).2 = s) ∧
    (∀ id, (deleteTodo id s).1.status = 400 ∨ (deleteTodo id s).1.status = 404 →
      (deleteTodo id s).2 = s) ∧
    (∀ id, (markDone now id s).1.status = 400 ∨ (markDone now id s).1.status = 404 →
      (markDone now id s).2 = s) := by
  refine ⟨rfl, fun id => get_state id s, rfl, rfl, ?_, ?_, ?_⟩
  · intro body h
    rcases create_cases newDate now body s with hc | ⟨-, hc⟩
    · rw [hc] at h
      simp at h
    · exact hc
  · intro id h
    cases hf : s.todos.find? id.isIdOf with
    | none => rw [delete_not_found id s (by simpa [List.find?_eq_none] using hf)]
    | some todo =>
      obtain ⟨pre, post, hl, hpre, hpt, -⟩ := find_split id.isIdOf s.todos todo hf
      rw [delete_found id s pre post todo hl hpre hpt] at h
      simp at h
  · intro id h
    cases hf : s.todos.find? id.isIdOf with
    | none => rw [markDone_not_found now id s hf]
    | some todo =>
      rw [markDone_found now id s todo hf] at h
      simp at h

/-- C18 (mark done equals an update of `done` only). For every state, id and clock
reading, `POST /todos/:id/done` gives the same answer (status and payload) and the
same next state as `PUT /todos/:id` with the body `{done: true}`. -/
theorem markDone_eq_update (newDate : JVal → Option Int) (now : Int) (id : IdParam)
    (s : State) :
    markDone now id s =
      updateTodo newDate now id ⟨.undefined, .undefined, .undefined, .bool true⟩ s := by
  cases hf : s.todos.find? id.isIdOf with
  | none => rw [markDone_not_found now id s hf, update_not_found newDate now id _ s hf]
  | some todo =>
    rw [markDone_found now id s todo hf,
      update_accept newDate now id ⟨.undefined, .undefined, .undefined, .bool true⟩ s todo hf
        rfl (Or.inl rfl)]
    rfl

/-- A record that is not remaining at a clock reading is not remaining at a later
one. -/
theorem isRemaining_of_later (t1 t2 : Int) (h : t1 ≤ t2) (t : Todo)
    (hr : isRemaining t2 t = true) : isRemaining t1 t = true := by
  rw [isRemaining_iff] at hr ⊢
  obtain ⟨hd, hdue⟩ := hr
  refine ⟨hd, ?_⟩
  rcases hdue with hn | ⟨due, hdue, hle⟩
  · exact Or.inl hn
  · exact Or.inr ⟨due, hdue, le_trans h hle⟩

/-- Filtering by a stronger test gives a sublist. -/
theorem filter_sublist_filter (p q : Todo → Bool) (h : ∀ t, p t = true → q t = true)
    (l : List Todo) : (l.filter p).Sublist (l.filter q) := by
  induction l with
  | nil => exact List.Sublist.refl _
  | cons x xs ih =>
    by_cases hp : p x = true
    · rw [List.filter_cons_of_pos hp, List.filter_cons_of_pos (h x hp)]
      exact ih.cons₂ x
    · rw [List.filter_cons_of_neg hp]
      by_cases hq : q x = true
      · rw [List.filter_cons_of_pos hq]
        exact ih.cons x
      · rw [List.filter_cons_of_neg hq]
        exact ih

/-- C19 (remaining only shrinks as time passes). On the same state and for clock
readings `t1 ≤ t2`, the list `GET /todos-remaining` returns at `t2` is a sublist of
the one it returns at `t1`, and both are sublists of the list `GET /todos` returns;
a record of the unchanged collection that is not remaining at `t1` is not remaining
at `t2`. -/
theorem remaining_shrinks (t1 t2 : Int) (h : t1 ≤ t2) (s : State) :
    ∃ r1 r2 all,
      (listRemaining t1 s).1 = ⟨200, .todos r1⟩ ∧
      (listRemaining t2 s).1 = ⟨200, .todos r2⟩ ∧
      (listTodos s).1 = ⟨200, .todos all⟩ ∧
      r2.Sublist r1 ∧ r1.Sublist all ∧ r2.Sublist all ∧
      (∀ t ∈ all, t ∉ r1 → t ∉ r2) :=
  ⟨s.todos.filter (isRemaining t1), s.todos.filter (isRemaining t2), s.todos, rfl, rfl, rfl,
    filter_sublist_filter _ _ (isRemaining_of_later t1 t2 h) s.todos,
    List.filter_sublist _, List.filter_sublist _,
    fun _ _ hn hm =>
      hn ((filter_sublist_filter _ _ (isRemaining_of_later t1 t2 h) s.todos).subset hm)⟩

/-- Witness of C19: a record due at time 5 is remaining at time 3 and no longer at
time 8. -/
theorem remaining_shrinks_witness :
    ∃ r1 r2 all,
      (listRemaining 3 ⟨[⟨1, .str "A", .str "", some 5, false, 0, 0⟩], 2⟩).1 =
        ⟨200, .todos r1⟩ ∧
      (listRemaining 8 ⟨[⟨1, .str "A", .str "", some 5, false, 0, 0⟩], 2⟩).1 =
        ⟨200, .todos r2⟩ ∧
      (listTodos ⟨[⟨1, .str "A", .str "", some 5, false, 0, 0⟩], 2⟩).1 = ⟨200, .todos all⟩ ∧
      r2.Sublist r1 ∧ r1.Sublist all ∧ r2.Sublist all ∧
      (∀ t ∈ all, t ∉ r1 → t ∉ r2) :=
  remaining_shrinks 3 8 (by decide) ⟨[⟨1, .str "A", .str "", some 5, false, 0, 0⟩], 2⟩

/-! ## Theorems: timestamps -/

/-- A creation time once recorded is not changed by later stamps. -/
theorem createdStamped_append_of_some (i : Nat) (evs more : List Stamp) (c : Int)
    (h : createdStamped i evs = some c) : createdStamped i (evs ++ more) = some c := by
  unfold createdStamped at h ⊢
  rw [List.find?_append]
  cases hf : evs.find? (fun e => e.created && e.id == i) with
  | none => rw [hf] at h; cases h
  | some e => rw [hf] at h; simpa using h

/-- The creating stamp of an id that has no earlier stamp. -/
theorem createdStamped_append_new (i : Nat) (evs : List Stamp) (now : Int)
    (h : ∀ e ∈ evs, e.id ≠ i) : createdStamped i (evs ++ [⟨now, i, true⟩]) = some now := by
  unfold createdStamped
  have hn : evs.find? (fun e => e.created && e.id == i) = none := by
    rw [List.find?_eq_none]
    intro e he
    simp [h e he]
  rw [List.find?_append, hn]
  simp

/-- The last stamping time after one more stamp. -/
theorem lastStamped_append_single (i : Nat) (evs : List Stamp) (e : Stamp) :
    lastStamped i (evs ++ [e]) = if e.id = i then some e.time else lastStamped i evs := by
  unfold lastStamped
  rw [List.reverse_append, List.reverse_singleton, List.singleton_append]
  by_cases h : e.id = i
  · simp [h]
  · simp [h]

/-- Agreement is kept when the counter is kept and every record afterwards carries the
id and the timestamps of a record before. -/
theorem agree_of_same_stamps (s u : State) (evs : List Stamp) (h : Agree s evs)
    (hn : u.nextId = s.nextId)
    (hrec : ∀ x ∈ u.todos, ∃ t ∈ s.todos,
      t.id = x.id ∧ t.createdAt = x.createdAt ∧ t.updatedAt = x.updatedAt) :
    Agree u evs := by
  refine ⟨fun e he => by rw [hn]; exact h.1 e he, ?_⟩
  intro x hx
  obtain ⟨t, ht, hid, hc, hu⟩ := hrec x hx
  rw [← hid, ← hc, ← hu]
  exact h.2 t ht

/-- In a well-formed collection the records around a record have other ids. -/
theorem id_ne_of_split (s : State) (hwf : WellFormed s) (pre post : List Todo) (old : Todo)
    (hl : s.todos = pre ++ old :: post) : ∀ t ∈ pre ++ post, t.id ≠ old.id := by
  have hpw : (s.todos.map Todo.id).Pairwise (· < ·) := hwf.1
  rw [hl, List.map_append, List.map_cons, List.pairwise_append] at hpw
  intro t ht
  rcases List.mem_append.mp ht with ht | ht
  · exact Nat.ne_of_lt (hpw.2.2 t.id (List.mem_map_of_mem _ ht) old.id (List.mem_cons_self _ _))
  · exact Nat.ne_of_gt ((List.pairwise_cons.mp hpw.2.1).1 t.id (List.mem_map_of_mem _ ht))

/-- Agreement after a successful write to a stored record: the record keeps its id and
creation time, is stamped with the clock reading, and the stamp is recorded. -/
theorem agree_write (s : State) (evs : List Stamp) (hwf : WellFormed s) (h : Agree s evs)
    (pre post : List Todo) (old u : Todo) (now : Int) (hl : s.todos = pre ++ old :: post)
    (hid : u.id = old.id) (hc : u.createdAt = old.createdAt) (hu : u.updatedAt = now) :
    Agree ⟨pre ++ u :: post, s.nextId⟩ (evs ++ [⟨now, u.id, false⟩]) := by
  have hold : old ∈ s.todos := by rw [hl]; simp
  refine ⟨?_, ?_⟩
  · intro e he
    rcases List.mem_append.mp he with he | he
    · exact h.1 e he
    · rw [List.mem_singleton.mp he, hid]
      exact (hwf.2.1 old.id (List.mem_map_of_mem _ hold)).2
  · intro x hx
    have hx2 : x = u ∨ x ∈ pre ++ post := by
      rcases List.mem_append.mp hx with hx | hx
      · exact Or.inr (List.mem_append_left _ hx)
      · rcases List.mem_cons.mp hx with hx | hx
        · exact Or.inl hx
        · exact Or.inr (List.mem_append_right _ hx)
    rcases hx2 with hx2 | hx2
    · subst hx2
      refine ⟨?_, ?_⟩
      · rw [hc, hid]
        exact createdStamped_append_of_some _ _ _ _ (h.2 old hold).1
      · rw [lastStamped_append_single, hu]
        simp
    · have hne := id_ne_of_split s hwf pre post old hl x hx2
      have hxs : x ∈ s.todos := by
        rw [hl]
        rcases List.mem_append.mp hx2 with hm | hm
        · exact List.mem_append_left _ hm
        · exact List.mem_append_right _ (List.mem_cons_of_mem _ hm)
      refine ⟨createdStamped_append_of_some _ _ _ _ (h.2 x hxs).1, ?_⟩
      rw [lastStamped_append_single]
      have hne2 : ¬ u.id = x.id := by rw [hid]; exact fun he => hne he.symm
      simp only [hne2, if_false]
      exact (h.2 x hxs).2

/-- Agreement after a successful create: the new record has the counter as id and both
timestamps equal to the clock reading, and its creating stamp is recorded. -/
theorem agree_create (s : State) (evs : List Stamp) (hwf : WellFormed s) (h : Agree s evs)
    (c : Todo) (now : Int) (hid : c.id = s.nextId) (hc : c.createdAt = now)
    (hu : c.updatedAt = now) :
    Agree ⟨s.todos ++ [c], s.nextId + 1⟩ (evs ++ [⟨now, c.id, true⟩]) := by
  refine ⟨?_, ?_⟩
  · intro e he
    rcases List.mem_append.mp he with he | he
    · exact Nat.lt_succ_of_lt (h.1 e he)
    · rw [List.mem_singleton.mp he, hid]
      exact Nat.lt_succ_self _
  · intro x hx
    rcases List.mem_append.mp hx with hx | hx
    · have hlt : x.id < s.nextId := (hwf.2.1 x.id (List.mem_map_of_mem _ hx)).2
      refine ⟨createdStamped_append_of_some _ _ _ _ (h.2 x hx).1, ?_⟩
      rw [lastStamped_append_single]
      have hne : ¬ c.id = x.id := by rw [hid]; exact Nat.ne_of_gt hlt
      simp only [hne, if_false]
      exact (h.2 x hx).2
    · rw [List.mem_singleton.mp hx]
      refine ⟨?_, ?_⟩
      · rw [hc]
        exact createdStamped_append_new _ _ _
          (fun e he => by rw [hid]; exact Nat.ne_of_lt (h.1 e he))
      · rw [lastStamped_append_single, hu]
        simp

/-- Every request keeps the agreement of the stored timestamps with the stamps, the
stamp of the request being added. -/
theorem agree_handle (newDate : JVal → Option Int) (now : Int) (req : Request) (s : State)
    (evs : List Stamp) (hwf : WellFormed s) (h : Agree s evs) :
    Agree (handle newDate now req s).2
      (evs ++ (stampOf now req (handle newDate now req s).1).toList) := by
  have hsame : Agree s (evs ++ (none : Option Stamp).toList) := by simpa using h
  cases req with
  | create body =>
    show Agree (createTodo newDate now body s).2
      (evs ++ (stampOf now (.create body) (createTodo newDate now body s).1).toList)
    by_cases ht : (!body.title.truthy || body.title.typeof != "string") = true
    · rw [create_reject_title newDate now body s ht]; exact hsame
    · have ht2 : (!body.title.truthy || body.title.typeof != "string") = false := by
        simpa using ht
      by_cases hd : body.dueAt.truthy = true ∧ newDate body.dueAt = none
      · rw [create_reject_dueAt newDate now body s ht2 hd.1 hd.2]; exact hsame
      · have hok : body.dueAt.truthy = false ∨ newDate body.dueAt ≠ none := by
          by_cases h1 : body.dueAt.truthy = true
          · exact Or.inr (fun hn => hd ⟨h1, hn⟩)
          · exact Or.inl (by simpa using h1)
        rw [create_accept newDate now body s ht2 hok]
        exact agree_create s evs hwf h (createdTodo newDate now body s) now rfl rfl rfl
  | list => exact hsame
  | get id =>
    show Agree (getTodo id s).2 _
    rw [get_state]; exact hsame
  | update id body =>
    show Agree (updateTodo newDate now id body s).2
      (evs ++ (stampOf now (.update id body) (updateTodo newDate now id body s).1).toList)
    cases hf : s.todos.find? id.isIdOf with
    | none => rw [update_not_found newDate now id body s hf]; exact hsame
    | some old =>
      obtain ⟨pre, post, hl, -, -, hw⟩ := find_split id.isIdOf s.todos old hf
      by_cases ht :
          (body.title.isDefined && (!body.title.truthy || body.title.typeof != "string")) = true
      · rw [update_reject_title newDate now id body s old hf ht]; exact hsame
      · have ht2 : (body.title.isDefined &&
            (!body.title.truthy || body.title.typeof != "string")) = false := by simpa using ht
        by_cases hd : body.dueAt.truthy = true ∧ newDate body.dueAt = none
        · rw [update_reject_dueAt newDate now id body s old hf ht2 hd.1 hd.2]
          refine agree_of_same_stamps s _ _ hsame rfl ?_
          intro x hx
          rw [hw] at hx
          rcases List.mem_append.mp hx with hx | hx
          · exact ⟨x, by rw [hl]; exact List.mem_append_left _ hx, rfl, rfl, rfl⟩
          · rcases List.mem_cons.mp hx with hx | hx
            · exact ⟨old, by rw [hl]; simp, by rw [hx]; rfl, by rw [hx]; rfl, by rw [hx]; rfl⟩
            · exact ⟨x, by rw [hl]; exact List.mem_append_right _ (List.mem_cons_of_mem _ hx),
                rfl, rfl, rfl⟩
        · have hdue : body.dueAt.truthy = false ∨ newDate body.dueAt ≠ none := by
            by_cases h1 : body.dueAt.truthy = true
            · exact Or.inr (fun hn => hd ⟨h1, hn⟩)
            · exact Or.inl (by simpa using h1)
          rw [update_accept newDate now id body s old hf ht2 hdue]
          show Agree ⟨assignFirst id.isIdOf _ s.todos, s.nextId⟩ _
          rw [hw]
          exact agree_write s evs hwf h pre post old (updatedTodo newDate now body old) now hl
            rfl rfl rfl
  | delete id =>
    refine agree_of_same_stamps s _ _ hsame (delete_nextId id s) ?_
    intro x hx
    exact ⟨x, (delete_sublist id s).1.subset hx, rfl, rfl, rfl⟩
  | done id =>
    show Agree (markDone now id s).2
      (evs ++ (stampOf now (.done id) (markDone now id s).1).toList)
    cases hf : s.todos.find? id.isIdOf with
    | none => rw [markDone_not_found now id s hf]; exact hsame
    | some old =>
      obtain ⟨pre, post, hl, -, -, hw⟩ := find_split id.isIdOf s.todos old hf
      rw [markDone_found now id s old hf]
      show Agree ⟨assignFirst id.isIdOf _ s.todos, s.nextId⟩ _
      rw [hw]
      exact agree_write s evs hwf h pre post old { old with done := true, updatedAt := now } now
        hl rfl rfl rfl
  | remaining => exact hsame
  | health => exact hsame

/-- The stamps of a run continued. -/
theorem stampsFrom_append (newDate : JVal → Option Int) (xs ys : List (Int × Request))
    (s : State) :
    stampsFrom newDate s (xs ++ ys) =
      stampsFrom newDate s xs ++ stampsFrom newDate (runFrom newDate s xs) ys := by
  induction xs generalizing s with
  | nil => rfl
  | cons q rest ih =>
    show _ ++ stampsFrom newDate _ (rest ++ ys) = (_ ++ _) ++ _
    rw [ih, List.append_assoc]
    rfl

/-- Every run keeps the agreement, the stamps of the run being added. -/
theorem agree_runFrom (newDate : JVal → Option Int) (reqs : List (Int × Request)) (s : State)
    (evs : List Stamp) (hwf : WellFormed s) (h : Agree s evs) :
    Agree (runFrom newDate s reqs) (evs ++ stampsFrom newDate s reqs) := by
  induction reqs generalizing s evs with
  | nil => simpa [runFrom, stampsFrom] using h
  | cons q rest ih =>
    have h1 := agree_handle newDate q.1 q.2 s evs hwf h
    have h2 := ih _ _ (wellFormed_handle newDate q.1 q.2 s hwf) h1
    simpa [runFrom, stampsFrom, List.append_assoc] using h2

/-- A request at a clock reading not before the bound of the stored timestamps keeps
`createdAt ≤ updatedAt` and leaves every `updatedAt` at most the clock reading. -/
theorem bounded_handle (newDate : JVal → Option Int) (now : Int) (req : Request) (s : State)
    (c : Int) (hc : c ≤ now)
    (h : ∀ t ∈ s.todos, t.createdAt ≤ t.updatedAt ∧ t.updatedAt ≤ c) :
    ∀ t ∈ (handle newDate now req s).2.todos, t.createdAt ≤ t.updatedAt ∧ t.updatedAt ≤ now := by
  refine forall_todos_handle _ newDate now req s
    (fun t ht => ⟨(h t ht).1, le_trans (h t ht).2 hc⟩) ?_ ?_ ?_
  · intro body _ _
    exact ⟨le_refl _, le_refl _⟩
  · intro id body old _ hold _
    exact ⟨⟨le_trans hold.1 hold.2, le_refl _⟩, hold⟩
  · intro old hold
    exact ⟨le_trans hold.1 hold.2, le_refl _⟩

/-- A run with non-decreasing clock readings, none before the bound of the stored
timestamps, keeps `createdAt ≤ updatedAt` and leaves every `updatedAt` at most any
time that is not before the readings. -/
theorem bounded_runFrom (newDate : JVal → Option Int) (reqs : List (Int × Request))
    (s : State) (c : Int)
    (h : ∀ t ∈ s.todos, t.createdAt ≤ t.updatedAt ∧ t.updatedAt ≤ c)
    (hsorted : (reqs.map Prod.fst).Pairwise (· ≤ ·)) (hge : ∀ q ∈ reqs, c ≤ q.1)
    (c2 : Int) (hc2 : c ≤ c2) (hle : ∀ q ∈ reqs, q.1 ≤ c2) :
    ∀ t ∈ (runFrom newDate s reqs).todos, t.createdAt ≤ t.updatedAt ∧ t.updatedAt ≤ c2 := by
  induction reqs generalizing s c with
  | nil => exact fun t ht => ⟨(h t ht).1, le_trans (h t ht).2 hc2⟩
  | cons q rest ih =>
    rw [List.map_cons, List.pairwise_cons] at hsorted
    refine ih _ q.1 (bounded_handle newDate q.1 q.2 s c (hge q (List.mem_cons_self _ _)) h)
      hsorted.2 ?_ (hle q (List.mem_cons_self _ _))
      (fun x hx => hle x (List.mem_cons_of_mem _ hx))
    intro x hx
    exact hsorted.1 x.1 (List.mem_map_of_mem _ hx)

/-- Some time is not before any clock reading of a run. -/
theorem exists_clock_bound (reqs : List (Int × Request)) : ∃ c : Int, ∀ q ∈ reqs, q.1 ≤ c := by
  induction reqs with
  | nil => exact ⟨0, fun q hq => by cases hq⟩
  | cons x xs ih =>
    obtain ⟨c, hc⟩ := ih
    refine ⟨max x.1 c, ?_⟩
    intro q hq
    rcases List.mem_cons.mp hq with hq | hq
    · rw [hq]; exact le_max_left _ _
    · exact le_trans (hc q hq) (le_max_right _ _)

/-- The record in a 200 answer of `PUT /todos/:id` is stamped with the clock reading. -/
theorem update_200_updatedAt (newDate : JVal → Option Int) (now : Int) (id : IdParam)
    (body : Body) (s : State) (r : Todo)
    (h : (updateTodo newDate now id body s).1 = ⟨200, .todo r⟩) : r.updatedAt = now := by
  cases hf : s.todos.find? id.isIdOf with
  | none =>
    rw [update_not_found newDate now id body s hf] at h
    simp at h
  | some old =>
    by_cases ht :
        (body.title.isDefined && (!body.title.truthy || body.title.typeof != "string")) = true
    · rw [update_reject_title newDate now id body s old hf ht] at h
      simp at h
    · have ht2 : (body.title.isDefined &&
          (!body.title.truthy || body.title.typeof != "string")) = false := by simpa using ht
      by_cases hd : body.dueAt.truthy = true ∧ newDate body.dueAt = none
      · rw [update_reject_dueAt newDate now id body s old hf ht2 hd.1 hd.2] at h
        simp at h
      · have hdue : body.dueAt.truthy = false ∨ newDate body.dueAt ≠ none := by
          by_cases h1 : body.dueAt.truthy = true
          · exact Or.inr (fun hn => hd ⟨h1, hn⟩)
          · exact Or.inl (by simpa using h1)
        rw [update_accept newDate now id body s old hf ht2 hdue] at h
        simp only [Response.mk.injEq, Payload.todo.injEq, true_and] at h
        rw [← h]
        rfl

/-- The record in a 200 answer of `POST /todos/:id/done` is stamped with the clock
reading. -/
theorem markDone_200_updatedAt (now : Int) (id : IdParam) (s : State) (r : Todo)
    (h : (markDone now id s).1 = ⟨200, .todo r⟩) : r.updatedAt = now := by
  cases hf : s.todos.find? id.isIdOf with
  | none =>
    rw [markDone_not_found now id s hf] at h
    simp at h
  | some old =>
    rw [markDone_found now id s old hf] at h
    simp only [Response.mk.injEq, Payload.todo.injEq, true_and] at h
    rw [← h]

/-- C16 (timestamps). After every run of requests from startup, every stored record
has as `createdAt` the time of the create that made it and as `updatedAt` the time
of the last successful create, update or mark-done applied to it; however the run is
continued, a record with the same id still has the same `createdAt`. When the clock
readings of the run are non-decreasing, every stored record has
`createdAt ≤ updatedAt`, and an update or a mark-done answered 200 at a clock reading
not before those of the run returns a record whose `updatedAt` is not before the one
the record with that id had. -/
theorem timestamps (newDate : JVal → Option Int) (reqs : List (Int × Request)) :
    (∀ t ∈ (runFrom newDate State.init reqs).todos,
      createdStamped t.id (stampsFrom newDate State.init reqs) = some t.createdAt ∧
      lastStamped t.id (stampsFrom newDate State.init reqs) = some t.updatedAt) ∧
    (∀ more, ∀ t ∈ (runFrom newDate State.init reqs).todos,
      ∀ u ∈ (runFrom newDate State.init (reqs ++ more)).todos,
        u.id = t.id → u.createdAt = t.createdAt) ∧
    ((reqs.map Prod.fst).Pairwise (· ≤ ·) →
      (∀ t ∈ (runFrom newDate State.init reqs).todos, t.createdAt ≤ t.updatedAt) ∧
      (∀ now id body r, (∀ q ∈ reqs, q.1 ≤ now) →
        (updateTodo newDate now id body (runFrom newDate State.init reqs)).1 =
          ⟨200, .todo r⟩ →
        ∀ old ∈ (runFrom newDate State.init reqs).todos, id.isIdOf old = true →
          old.updatedAt ≤ r.updatedAt) ∧
      (∀ now id r, (∀ q ∈ reqs, q.1 ≤ now) →
        (markDone now id (runFrom newDate State.init reqs)).1 = ⟨200, .todo r⟩ →
        ∀ old ∈ (runFrom newDate State.init reqs).todos, id.isIdOf old = true →
          old.updatedAt ≤ r.updatedAt)) := by
  have hinit : Agree State.init [] := by
    constructor
    · intro e he; cases he
    · intro t ht; cases ht
  have hag : ∀ xs, Agree (runFrom newDate State.init xs) (stampsFrom newDate State.init xs) := by
    intro xs
    simpa using agree_runFrom newDate xs State.init [] wellFormed_init hinit
  refine ⟨(hag reqs).2, ?_, ?_⟩
  · intro more t ht u hu hid
    have h1 := ((hag reqs).2 t ht).1
    have h2 := ((hag (reqs ++ more)).2 u hu).1
    rw [stampsFrom_append, hid, createdStamped_append_of_some _ _ _ _ h1] at h2
    exact (Option.some.inj h2).symm
  · intro hsorted
    have hb : ∀ c2 : Int, (∀ q ∈ reqs, q.1 ≤ c2) →
        ∀ t ∈ (runFrom newDate State.init reqs).todos,
          t.createdAt ≤ t.updatedAt ∧ t.updatedAt ≤ c2 := by
      intro c2 hle
      cases hreqs : reqs with
      | nil => intro t ht; cases ht
      | cons q rest =>
        rw [← hreqs]
        have hq : q ∈ reqs := by rw [hreqs]; exact List.mem_cons_self _ _
        have hmin : ∀ x ∈ reqs, q.1 ≤ x.1 := by
          intro x hx
          rw [hreqs] at hx hsorted
          rw [List.map_cons, List.pairwise_cons] at hsorted
          rcases List.mem_cons.mp hx with hx | hx
          · rw [hx]
          · exact hsorted.1 x.1 (List.mem_map_of_mem _ hx)
        exact bounded_runFrom newDate reqs State.init q.1 (fun t ht => by cases ht) hsorted
          hmin c2 (hle q hq) hle
    refine ⟨?_, ?_, ?_⟩
    · intro t ht
      obtain ⟨c2, hc2⟩ := exists_clock_bound reqs
      exact (hb c2 hc2 t ht).1
    · intro now id body r hle hres old hold _
      rw [update_200_updatedAt newDate now id body _ r hres]
      exact (hb now hle old hold).2
    · intro now id r hle hres old hold _
      rw [markDone_200_updatedAt now id _ r hres]
      exact (hb now hle old hold).2

/-- Witness of C16: "A" is created at time 0 and marked done at time 5; the last
stamp of record 1 is at time 5, its `updatedAt`, and `createdAt ≤ updatedAt`. -/
theorem timestamps_witness :
    lastStamped 1
        (stampsFrom sampleDate State.init
          [(0, .create ⟨.str "A", .undefined, .undefined, .undefined⟩),
           (5, .done (.int 1))]) = some 5 ∧
      (⟨1, .str "A", .str "", none, true, 0, 5⟩ : Todo).createdAt ≤
        (⟨1, .str "A", .str "", none, true, 0, 5⟩ : Todo).updatedAt :=
  ⟨((timestamps sampleDate
      [(0, .create ⟨.str "A", .undefined, .undefined, .undefined⟩),
       (5, .done (.int 1))]).1 ⟨1, .str "A", .str "", none, true, 0, 5⟩ (List.Mem.head _)).2,
    ((timestamps sampleDate
      [(0, .create ⟨.str "A", .undefined, .undefined, .undefined⟩),
       (5, .done (.int 1))]).2.2 (by decide)).1
      ⟨1, .str "A", .str "", none, true, 0, 5⟩ (List.Mem.head _)⟩

end TodoApp
